import Mathlib

/-!
# File-backed configuration store (`api/store.go`)

A shallow embedding of the `fileStore` of `api/store.go`: the three lookups
`Machine`, `Spec` and `CloudConfig`, the candidate search `find`, the
candidate `filter` and the regular-file check `openFile`, over an abstract
`http.FileSystem`.

Paths are Go strings.  The lexical path functions of Go's `path/filepath`
(`Clean`, `Join`, `Dir`, Unix flavour) are embedded on character lists and
wrapped on `String`.  Calls to the provider are threaded through an explicit
`World` that records every path passed to `Open` and the handles that are
currently open.
-/

set_option autoImplicit false

namespace api

/-! ## `path/filepath` (Unix) -/

namespace filepath

/-- The path separator of `path/filepath` on Unix. -/
def Separator : Char := '/'

/-- The elements of a path: the pieces between separators (possibly empty). -/
def splitSep : List Char → List (List Char)
  | [] => [[]]
  | c :: cs =>
    if c = Separator then [] :: splitSep cs
    else
      match splitSep cs with
      | [] => [[c]]
      | x :: xs => (c :: x) :: xs

/-- Elements joined with single separators (`strings.Join(elems, "/")`). -/
def joinSep : List (List Char) → List Char
  | [] => []
  | [x] => x
  | x :: y :: rest => x ++ Separator :: joinSep (y :: rest)

/-- One step of `Clean` on the next path element.  `out` holds the elements
written so far, most recent first.  Empty and `.` elements are dropped; a `..`
element removes the last written element unless there is none or it is itself
`..`, in which case it is kept on a relative path and dropped on a rooted one;
any other element is written. -/
def cleanStep (rooted : Bool) (out : List (List Char)) (elem : List Char) :
    List (List Char) :=
  if elem = [] ∨ elem = ['.'] then out
  else if elem = ['.', '.'] then
    match out with
    | [] => if rooted then [] else [elem]
    | top :: rest =>
      if top = ['.', '.'] then (if rooted then out else elem :: out) else rest
  else elem :: out

/-- `filepath.Clean` on the characters of a path. -/
def cleanChars (path : List Char) : List Char :=
  if path = [] then ['.']
  else
    let rooted : Bool := path.head? = some Separator
    let out := ((splitSep path).foldl (cleanStep rooted) []).reverse
    if rooted then Separator :: joinSep out
    else if out = [] then ['.'] else joinSep out

/-- `filepath.Clean`: the shortest path name equivalent to `path` by purely
lexical processing. -/
def Clean (path : String) : String := String.mk (cleanChars path.data)

/-- `filepath.Join`: leading empty elements are ignored, the remaining ones are
joined with separators and the result is cleaned; with no non-empty element
the result is the empty string. -/
def Join : List String → String
  | [] => ""
  | e :: rest =>
    if e = "" then Join rest
    else Clean (String.mk (joinSep ((e :: rest).map String.data)))

/-- The part of a path up to and including its last separator (empty when the
path has no separator). -/
def dirChars (path : List Char) : List Char :=
  ((path.reverse).dropWhile (fun c => c != Separator)).reverse

/-- `filepath.Dir`: all but the last element of `path`, cleaned. -/
def Dir (path : String) : String := Clean (String.mk (dirChars path.data))

end filepath

/-! ## `net.HardwareAddr` -/

/-- A hardware address: a sequence of bytes.  The zero value is the empty
sequence. -/
abbrev HardwareAddr := List Nat

/-- The digit table `hexDigit` of package `net`. -/
def hexDigit : List Char := "0123456789abcdef".data

/-- The loop of `HardwareAddr.String`: from index `i` on, every byte is
written as two hex digits (`b>>4`, `b&0xF`), preceded by a colon when it is
not the first. -/
def HardwareAddr.writeFrom (i : Nat) : List Nat → List Char
  | [] => []
  | b :: rest =>
    (if i > 0 then [':'] else []) ++
      [hexDigit.getD (b / 16 % 16) '0', hexDigit.getD (b % 16) '0'] ++
      HardwareAddr.writeFrom (i + 1) rest

/-- `HardwareAddr.String`: the empty string for an empty address, otherwise
the colon-separated hex form. -/
def HardwareAddr.String (a : HardwareAddr) : String :=
  if a.length = 0 then "" else String.mk (HardwareAddr.writeFrom 0 a)

/-! ## Data model -/

/-- Modelled from the spec: the structured boot configuration (section 3,
"arbitrary nested data"); its type declaration is not part of `store.go`, and
the store only copies and compares it with nil, so it is kept uninterpreted. -/
structure BootConfig where
  data : String
  deriving DecidableEq, Repr

/-- Modelled from the spec: the identity used for lookup (section 3); its type
declaration is not part of `store.go`. -/
structure MachineAttrs where
  UUID : String
  MAC : HardwareAddr
  deriving DecidableEq, Repr

/-- Modelled from the spec: a machine's provisioning record (section 3); its
type declaration is not part of `store.go`.  `BootConfig` is a nilable
reference. -/
structure Machine where
  SpecID : String
  BootConfig : Option BootConfig
  deriving DecidableEq, Repr

/-- Modelled from the spec: a shared provisioning template (section 3); its
type declaration is not part of `store.go`. -/
structure Spec where
  BootConfig : Option BootConfig
  deriving DecidableEq, Repr

/-- Modelled from the spec: the cloud-config payload (section 3); its type
declaration is not part of `store.go`. -/
structure CloudConfig where
  Content : String
  deriving DecidableEq, Repr

/-- Go `error` values seen by the store.  `notExist` and `io` come from the
provider (failed `Open`, `Stat` or read), `decode` from the JSON decoder; the
other two are the errors built by `store.go` with `fmt.Errorf`. -/
inductive Error where
  | notExist (path : String)
  | io (msg : String)
  | decode (msg : String)
  | notAFile (path : String)
  | noConfig (pfx : String) (attrs : MachineAttrs)
  deriving DecidableEq, Repr

/-- The `%+v` rendering of a `MachineAttrs`. -/
def MachineAttrs.format (attrs : MachineAttrs) : String :=
  "\x7bUUID:" ++ attrs.UUID ++ " MAC:" ++ attrs.MAC.String ++ "\x7d"

/-- The text of an error (`err.Error()`). -/
def Error.message : Error → String
  | .notExist path => "open " ++ path ++ ": file does not exist"
  | .io msg => msg
  | .decode msg => msg
  | .notAFile path => path ++ " is not a file on the given filesystem"
  | .noConfig pfx attrs => "no " ++ pfx ++ " config for machine " ++ attrs.format

/-! ## `http.FileSystem` -/

/-- What `file.Stat()` reports, as far as the store looks:
`info.Mode().IsRegular()`. -/
structure FileInfo where
  isRegular : Bool
  deriving DecidableEq, Repr

/-- An entry a provider can open, described by what the store can observe of
it: the outcome of `Stat`, of `ioutil.ReadAll`, and of decoding its content
with `json.NewDecoder(file).Decode` into a fresh `Machine` or `Spec` (the
record as the decoder left it, and the decode error if any). -/
structure File where
  stat : Except Error FileInfo
  readAll : Except Error String
  decodeMachine : Machine × Option Error
  decodeSpec : Spec × Option Error

/-- An `http.FileSystem`: what `Open(name)` answers for each name. -/
structure FileSystem where
  open_ : String → Except Error File

/-- An open `http.File`: the entry, and the name it was opened under. -/
structure Handle where
  name : String
  file : File

/-- The observable state of the provider during a call: every name passed to
`Open` so far (oldest first) and the names of the handles that are open (most
recent first). -/
structure World where
  opened : List String
  live : List String
  deriving DecidableEq, Repr

/-- The method `fs.Open(name)`: the call is recorded, and a successful call
leaves one more open handle. -/
def FileSystem.Open (fs : FileSystem) (name : String) (w : World) :
    Except Error Handle × World :=
  match fs.open_ name with
  | .error err => (.error err, { w with opened := w.opened ++ [name] })
  | .ok f => (.ok ⟨name, f⟩, { opened := w.opened ++ [name], live := name :: w.live })

/-- The method `file.Close()`: the handle is no longer open. -/
def Handle.Close (h : Handle) (w : World) : World :=
  { w with live := w.live.erase h.name }

/-! ## `store.go` -/

/-- The constant `cloudPrefix`. -/
def cloudPrefix : String := "cloud"

/-- The constant `bootPrefix`. -/
def bootPrefix : String := "boot"

/-- The function `openFile`: opens `path` and keeps the handle only if `Stat`
succeeds and reports a regular file; otherwise the handle is closed and an
error returned. -/
def openFile (fs : FileSystem) (path : String) (w : World) :
    Except Error Handle × World :=
  match fs.Open path w with
  | (.error err, w1) => (.error err, w1)
  | (.ok file, w1) =>
    match file.file.stat with
    | .error err => (.error err, file.Close w1)
    | .ok info =>
      if info.isRegular then (.ok file, w1)
      else (.error (.notAFile path), file.Close w1)

/-- The function `filter`: the paths whose `filepath.Dir` is not `"."`, in
order. -/
def filter : List String → List String
  | [] => []
  | path :: rest =>
    if filepath.Dir path ≠ "." then path :: filter rest else filter rest

/-- The store backed by an `http.FileSystem`. -/
structure fileStore where
  root : FileSystem

/-- The loop of `find` over the filtered candidates: the first candidate that
`openFile` accepts is returned, every error is dropped. -/
def fileStore.findLoop (s : fileStore) (pfx : String) :
    List String → World → Option Handle × World
  | [], w => (none, w)
  | path :: rest, w =>
    match openFile s.root (filepath.Join [pfx, path]) w with
    | (.ok file, w1) => (some file, w1)
    | (.error _, w1) => fileStore.findLoop s pfx rest w1

/-- The candidate list `search` of `find`, before filtering. -/
def searchPaths (attrs : MachineAttrs) : List String :=
  [filepath.Join ["uuid", attrs.UUID], filepath.Join ["mac", attrs.MAC.String], "/default"]

/-- The method `find`: the first filtered candidate under `pfx` that is a
regular file, or the "no config" error. -/
def fileStore.find (s : fileStore) (pfx : String) (attrs : MachineAttrs) (w : World) :
    Except Error Handle × World :=
  match s.findLoop pfx (filter (searchPaths attrs)) w with
  | (some file, w1) => (.ok file, w1)
  | (none, w1) => (.error (.noConfig pfx attrs), w1)

/-- The method `Spec`: returns the pair `(*Spec, error)` of the Go method. -/
def fileStore.Spec (s : fileStore) (id : String) (w : World) :
    (Option api.Spec × Option Error) × World :=
  match openFile s.root (filepath.Join ["specs", id, "spec.json"]) w with
  | (.error err, w1) => ((none, some err), w1)
  | (.ok file, w1) =>
    let spec := file.file.decodeSpec.1
    let err := file.file.decodeSpec.2
    ((some spec, err), file.Close w1)

/-- The method `Machine`: returns the pair `(*Machine, error)` of the Go
method.  The error of the nested `Spec` call lives in the inner scope only;
the returned error is the decode error of the machine file. -/
def fileStore.Machine (s : fileStore) (id : String) (w : World) :
    (Option api.Machine × Option Error) × World :=
  match openFile s.root (filepath.Join ["machines", id, "machine.json"]) w with
  | (.error err, w1) => ((none, some err), w1)
  | (.ok file, w1) =>
    let machine := file.file.decodeMachine.1
    let err := file.file.decodeMachine.2
    if machine.BootConfig = none ∧ machine.SpecID ≠ "" then
      match s.Spec machine.SpecID w1 with
      | ((some spec, none), w2) =>
        ((some { machine with BootConfig := spec.BootConfig }, err), file.Close w2)
      | (_, w2) => ((some machine, err), file.Close w2)
    else ((some machine, err), file.Close w1)

/-- The method `CloudConfig`: returns the pair `(*CloudConfig, error)` of the
Go method. -/
def fileStore.CloudConfig (s : fileStore) (attrs : MachineAttrs) (w : World) :
    (Option api.CloudConfig × Option Error) × World :=
  match s.find cloudPrefix attrs w with
  | (.error err, w1) => ((none, some err), w1)
  | (.ok file, w1) =>
    match file.file.readAll with
    | .error err => ((none, some err), file.Close w1)
    | .ok b => ((some { Content := b }, none), file.Close w1)

/-! ## Provider-side vocabulary of the specification -/

/-- The name resolves to a regular file: `Open` succeeds, `Stat` succeeds and
reports a regular file. -/
def FileSystem.isRegularFile (fs : FileSystem) (path : String) : Bool :=
  match fs.open_ path with
  | .error _ => false
  | .ok f =>
    match f.stat with
    | .error _ => false
    | .ok info => info.isRegular

/-- The name exists but is a directory (or another non-regular entry): `Open`
and `Stat` succeed and `Stat` does not report a regular file. -/
def FileSystem.isDirectory (fs : FileSystem) (path : String) : Bool :=
  match fs.open_ path with
  | .error _ => false
  | .ok f =>
    match f.stat with
    | .error _ => false
    | .ok info => !info.isRegular

/-- The name is a readable regular file with content `c`. -/
def FileSystem.hasContent (fs : FileSystem) (path : String) (c : String) : Prop :=
  ∃ f, fs.open_ path = .ok f ∧ f.stat = .ok ⟨true⟩ ∧ f.readAll = .ok c

/-- The provider with the entry at `path` removed. -/
def FileSystem.without (fs : FileSystem) (path : String) : FileSystem :=
  ⟨fun q => if q = path then .error (.notExist q) else fs.open_ q⟩

/-- A path element that `Clean` leaves alone: non-empty, without separator,
and neither `.` nor `..`. -/
def filepath.IsPlain (e : List Char) : Prop :=
  e ≠ [] ∧ filepath.Separator ∉ e ∧ e ≠ ['.'] ∧ e ≠ ['.', '.']

/-! ## Sample entries and providers -/

/-- A regular file holding raw text `c`; it is not JSON, so both decoders
leave the zero-valued record and report an error. -/
def File.text (c : String) : File :=
  { stat := .ok ⟨true⟩
    readAll := .ok c
    decodeMachine := (⟨"", none⟩, some (.decode "invalid character"))
    decodeSpec := (⟨none⟩, some (.decode "invalid character")) }

/-- A directory: `Stat` succeeds and does not report a regular file. -/
def File.dir : File :=
  { stat := .ok ⟨false⟩
    readAll := .error (.io "is a directory")
    decodeMachine := (⟨"", none⟩, some (.io "is a directory"))
    decodeSpec := (⟨none⟩, some (.io "is a directory")) }

/-- A regular file whose reads fail. -/
def File.unreadable : File :=
  { stat := .ok ⟨true⟩
    readAll := .error (.io "input/output error")
    decodeMachine := (⟨"", none⟩, some (.io "input/output error"))
    decodeSpec := (⟨none⟩, some (.io "input/output error")) }

/-- An entry that opens but whose `Stat` fails. -/
def File.statFails : File :=
  { stat := .error (.io "stat failed")
    readAll := .error (.io "stat failed")
    decodeMachine := (⟨"", none⟩, some (.io "stat failed"))
    decodeSpec := (⟨none⟩, some (.io "stat failed")) }

/-- A well-formed `machine.json` holding the record `m`. -/
def File.machineJson (m : Machine) : File :=
  { stat := .ok ⟨true⟩
    readAll := .ok "machine"
    decodeMachine := (m, none)
    decodeSpec := (⟨m.BootConfig⟩, none) }

/-- A well-formed `spec.json` holding the record `sp`. -/
def File.specJson (sp : Spec) : File :=
  { stat := .ok ⟨true⟩
    readAll := .ok "spec"
    decodeMachine := (⟨"", sp.BootConfig⟩, none)
    decodeSpec := (sp, none) }

/-- A malformed `spec.json`: the decoder leaves the record `sp` and reports
the error `e`. -/
def File.badSpecJson (sp : Spec) (e : Error) : File :=
  { stat := .ok ⟨true⟩
    readAll := .ok "spec"
    decodeMachine := (⟨"", sp.BootConfig⟩, some e)
    decodeSpec := (sp, some e) }

/-- The provider holding exactly the listed entries; every other name does
not exist. -/
def FileSystem.ofList (entries : List (String × File)) : FileSystem :=
  ⟨fun name =>
    match entries.lookup name with
    | some f => .ok f
    | none => .error (.notExist name)⟩

/-- The state before a call: nothing opened, no handle open. -/
def World.init : World := ⟨[], []⟩

/-- A provider that serves the text `c` at `cloud/uuid` (also under the name
`cloud/uuid/.`) and nothing else. -/
def dotUuidFs : FileSystem :=
  FileSystem.ofList [("cloud/uuid/.", File.text "c"), ("cloud/uuid", File.text "c")]

/-- A provider with a cloud config for the UUID `u1`, for the MAC
`aa:bb:cc:dd:ee:ff` and a default one. -/
def cloudFs : FileSystem :=
  FileSystem.ofList
    [("cloud/uuid/u1", File.text "c"), ("cloud/mac/aa:bb:cc:dd:ee:ff", File.text "m"),
      ("cloud/default", File.text "d")]

/-- A provider with only the default cloud config. -/
def defaultOnlyFs : FileSystem :=
  FileSystem.ofList [("cloud/default", File.text "d")]

/-- A provider whose `cloud/uuid/u1` is a regular file that cannot be read,
next to a readable `cloud/default`. -/
def unreadableUuidFs : FileSystem :=
  FileSystem.ofList [("cloud/uuid/u1", File.unreadable), ("cloud/default", File.text "d")]

/-- A provider whose `cloud/uuid/u1` is a directory, next to a readable
`cloud/default`. -/
def dirUuidFs : FileSystem :=
  FileSystem.ofList [("cloud/uuid/u1", File.dir), ("cloud/default", File.text "d")]

/-- The attributes with UUID `u1` and MAC `aa:bb:cc:dd:ee:ff`. -/
def sampleAttrs : MachineAttrs := ⟨"u1", [0xaa, 0xbb, 0xcc, 0xdd, 0xee, 0xff]⟩

/-- A provider with machine records `a` (own boot config, no spec), `b`
(referring to the spec `S`), `c` (referring to a spec that does not exist),
`d` (referring to the malformed spec `bad`) and `e` (referring to `dir`, whose
`spec.json` is a directory). -/
def machineFs : FileSystem :=
  FileSystem.ofList
    [("machines/a/machine.json", File.machineJson ⟨"", some ⟨"boot-a"⟩⟩),
      ("machines/b/machine.json", File.machineJson ⟨"S", none⟩),
      ("machines/c/machine.json", File.machineJson ⟨"missing", none⟩),
      ("machines/d/machine.json", File.machineJson ⟨"bad", none⟩),
      ("machines/e/machine.json", File.machineJson ⟨"dir", none⟩),
      ("specs/S/spec.json", File.specJson ⟨some ⟨"boot-S"⟩⟩),
      ("specs/bad/spec.json",
        File.badSpecJson ⟨some ⟨"half"⟩⟩ (.decode "unexpected end of JSON input")),
      ("specs/dir/spec.json", File.dir)]

/-- A provider whose `cloud/default` is a directory and which holds nothing
else. -/
def dirDefaultFs : FileSystem :=
  FileSystem.ofList [("cloud/default", File.dir)]

/-- A provider whose `cloud/uuid/u1` opens but cannot be stat-ed, next to a
readable `cloud/default`. -/
def statFailsFs : FileSystem :=
  FileSystem.ofList [("cloud/uuid/u1", File.statFails), ("cloud/default", File.text "d")]

/-- A provider with a regular file at the bare name `cloud/mac`. -/
def cloudMacFs : FileSystem :=
  FileSystem.ofList [("cloud/mac", File.text "x")]

/-- A malformed `machine.json`: the decoder leaves the record `m` and reports
the error `e`. -/
def File.badMachineJson (m : Machine) (e : Error) : File :=
  { stat := .ok ⟨true⟩
    readAll := .ok "machine"
    decodeMachine := (m, some e)
    decodeSpec := (⟨m.BootConfig⟩, some e) }

/-- A provider with the spec `S`, a machine `o` that has its own boot config
and also refers to `S`, a malformed machine `p` whose partial record refers to
`S`, and directories at `machines/q/machine.json`, `specs/q/spec.json` and
`cloud/default`. -/
def mergeFs : FileSystem :=
  FileSystem.ofList
    [("machines/o/machine.json", File.machineJson ⟨"S", some ⟨"own"⟩⟩),
      ("machines/p/machine.json",
        File.badMachineJson ⟨"S", none⟩ (.decode "unexpected end of JSON input")),
      ("machines/q/machine.json", File.dir),
      ("specs/S/spec.json", File.specJson ⟨some ⟨"boot-S"⟩⟩),
      ("specs/q/spec.json", File.dir),
      ("cloud/default", File.dir)]

/-- The names passed to `Open` between the earlier state `w0` and the state
`w`. -/
def World.openedSince (w w0 : World) : List String :=
  w.opened.drop w0.opened.length

/-- The cleaned name lies below the directory `dir`. -/
def filepath.isUnder (dir path : String) : Bool :=
  (dir.data ++ [filepath.Separator]).isPrefixOf (filepath.Clean path).data

/-! ## Basic facts about `openFile`, `filter` and `find` -/

theorem hasContent_isRegularFile {fs : FileSystem} {path c : String}
    (h : fs.hasContent path c) : fs.isRegularFile path = true := by
  obtain ⟨f, ho, hs, _⟩ := h
  simp [FileSystem.isRegularFile, ho, hs]

theorem openFile_regular (fs : FileSystem) (path : String) (f : File) (w : World)
    (ho : fs.open_ path = .ok f) (hs : f.stat = .ok ⟨true⟩) :
    openFile fs path w
      = (.ok ⟨path, f⟩, { opened := w.opened ++ [path], live := path :: w.live }) := by
  simp [openFile, FileSystem.Open, ho, hs]

theorem openFile_fail (fs : FileSystem) (path : String) (w : World)
    (h : fs.isRegularFile path = false) :
    ∃ e, openFile fs path w
      = (.error e, { opened := w.opened ++ [path], live := w.live }) := by
  unfold FileSystem.isRegularFile at h
  unfold openFile FileSystem.Open
  cases ho : fs.open_ path with
  | error e => exact ⟨e, by simp⟩
  | ok f =>
    rw [ho] at h
    cases hs : f.stat with
    | error e => exact ⟨e, by simp [hs, Handle.Close]⟩
    | ok info =>
      simp only [hs] at h
      exact ⟨.notAFile path, by simp [hs, h, Handle.Close]⟩

theorem openFile_ok_regular (fs : FileSystem) (path : String) (w : World) (h : Handle)
    (hok : (openFile fs path w).1 = .ok h) : fs.isRegularFile path = true := by
  cases hr : fs.isRegularFile path with
  | true => rfl
  | false =>
    obtain ⟨e, he⟩ := openFile_fail fs path w hr
    rw [he] at hok
    cases hok

theorem filter_append (xs ys : List String) :
    filter (xs ++ ys) = filter xs ++ filter ys := by
  induction xs with
  | nil => rfl
  | cons x xs ih =>
    by_cases hx : filepath.Dir x = "."
    · simp [filter, hx, ih]
    · simp [filter, hx, ih]

theorem filter_default : filter ["/default"] = ["/default"] := by decide

theorem filter_searchPaths (attrs : MachineAttrs) :
    filter (searchPaths attrs)
      = filter [filepath.Join ["uuid", attrs.UUID], filepath.Join ["mac", attrs.MAC.String]]
          ++ ["/default"] := by
  have h := filter_append
    [filepath.Join ["uuid", attrs.UUID], filepath.Join ["mac", attrs.MAC.String]] ["/default"]
  rw [filter_default] at h
  exact h

theorem join_cloud_default : filepath.Join [cloudPrefix, "/default"] = "cloud/default" := by
  decide

theorem findLoop_skip (s : fileStore) (pfx : String) (pre rest : List String) (w : World)
    (h : ∀ q ∈ pre, s.root.isRegularFile (filepath.Join [pfx, q]) = false) :
    s.findLoop pfx (pre ++ rest) w
      = s.findLoop pfx rest
          { opened := w.opened ++ pre.map (fun q => filepath.Join [pfx, q]), live := w.live } := by
  induction pre generalizing w with
  | nil => simp
  | cons q pre ih =>
    obtain ⟨e, he⟩ := openFile_fail s.root (filepath.Join [pfx, q]) w (h q (by simp))
    have ih2 := ih { opened := w.opened ++ [filepath.Join [pfx, q]], live := w.live }
      (fun q2 hq2 => h q2 (by simp [hq2]))
    have ih3 : s.findLoop pfx (pre ++ rest)
        { opened := w.opened ++ [filepath.Join [pfx, q]], live := w.live }
        = s.findLoop pfx rest
          { opened := w.opened ++ (q :: pre).map (fun q => filepath.Join [pfx, q]),
            live := w.live } := by
      rw [ih2]; simp
    rw [← ih3]
    simp only [List.cons_append, fileStore.findLoop, he]
    rfl

theorem findLoop_hit (s : fileStore) (pfx : String) (p : String) (rest : List String)
    (f : File) (w : World)
    (ho : s.root.open_ (filepath.Join [pfx, p]) = .ok f) (hs : f.stat = .ok ⟨true⟩) :
    s.findLoop pfx (p :: rest) w
      = (some ⟨filepath.Join [pfx, p], f⟩,
          { opened := w.opened ++ [filepath.Join [pfx, p]],
            live := filepath.Join [pfx, p] :: w.live }) := by
  simp [fileStore.findLoop, openFile_regular s.root _ f w ho hs]

/-- The search of `CloudConfig` when the first candidates do not resolve and
the next one is a readable regular file: its content is returned, the opened
names are exactly the probed candidates, and no handle stays open. -/
theorem cloudConfig_first_hit (s : fileStore) (attrs : MachineAttrs)
    (pre : List String) (p : String) (post : List String) (c : String) (w : World)
    (hsplit : filter (searchPaths attrs) = pre ++ p :: post)
    (hpre : ∀ q ∈ pre, s.root.isRegularFile (filepath.Join [cloudPrefix, q]) = false)
    (hp : s.root.hasContent (filepath.Join [cloudPrefix, p]) c) :
    s.CloudConfig attrs w
      = ((some ⟨c⟩, none),
          { opened := w.opened ++ (pre ++ [p]).map (fun q => filepath.Join [cloudPrefix, q]),
            live := w.live }) := by
  obtain ⟨f, ho, hs, hr⟩ := hp
  simp [fileStore.CloudConfig, fileStore.find, hsplit, findLoop_skip s cloudPrefix pre _ w hpre,
    findLoop_hit s cloudPrefix p post f _ ho hs, hr, Handle.Close]

/-- The search of `CloudConfig` when no candidate resolves. -/
theorem cloudConfig_no_hit (s : fileStore) (attrs : MachineAttrs) (w : World)
    (h : ∀ q ∈ filter (searchPaths attrs),
      s.root.isRegularFile (filepath.Join [cloudPrefix, q]) = false) :
    s.CloudConfig attrs w
      = ((none, some (.noConfig cloudPrefix attrs)),
          { opened := w.opened
              ++ (filter (searchPaths attrs)).map (fun q => filepath.Join [cloudPrefix, q]),
            live := w.live }) := by
  have hs := findLoop_skip s cloudPrefix (filter (searchPaths attrs)) [] w h
  rw [List.append_nil] at hs
  simp [fileStore.CloudConfig, fileStore.find, hs, fileStore.findLoop]

/-! ## `Clean`, `Join` and `Dir` on plain path elements -/

namespace filepath

theorem splitSep_ne_nil (p : List Char) : splitSep p ≠ [] := by
  induction p with
  | nil => simp [splitSep]
  | cons c cs ih =>
    unfold splitSep
    split
    · simp
    · split <;> simp

theorem splitSep_noSep (e : List Char) (h : Separator ∉ e) : splitSep e = [e] := by
  induction e with
  | nil => rfl
  | cons c cs ih =>
    have hc : c ≠ Separator := fun hc => h (by simp [hc])
    have hcs : Separator ∉ cs := fun hcs => h (by simp [hcs])
    simp [splitSep, hc, ih hcs]

theorem splitSep_append (e rest : List Char) (h : Separator ∉ e) :
    splitSep (e ++ Separator :: rest) = e :: splitSep rest := by
  induction e with
  | nil => simp [splitSep]
  | cons c cs ih =>
    have hc : c ≠ Separator := fun hc => h (by simp [hc])
    have hcs : Separator ∉ cs := fun hcs => h (by simp [hcs])
    simp [splitSep, hc, ih hcs]

theorem splitSep_joinSep (cs : List (List Char)) (hne : cs ≠ [])
    (h : ∀ e ∈ cs, Separator ∉ e) : splitSep (joinSep cs) = cs := by
  induction cs with
  | nil => exact absurd rfl hne
  | cons x rest ih =>
    cases rest with
    | nil => simpa [joinSep] using splitSep_noSep x (h x (by simp))
    | cons y rest =>
      have hx : Separator ∉ x := h x (by simp)
      have ih2 := ih (by simp) (fun e he => h e (by simp [he]))
      simp only [joinSep]
      rw [splitSep_append x _ hx, ih2]

theorem foldl_cleanStep_plain (rooted : Bool) (cs acc : List (List Char))
    (h : ∀ e ∈ cs, IsPlain e) :
    cs.foldl (cleanStep rooted) acc = cs.reverse ++ acc := by
  induction cs generalizing acc with
  | nil => rfl
  | cons x rest ih =>
    obtain ⟨h1, _, h3, h4⟩ := h x (by simp)
    have hstep : cleanStep rooted acc x = x :: acc := by simp [cleanStep, h1, h3, h4]
    simp [List.foldl_cons, hstep, ih (x :: acc) (fun e he => h e (by simp [he]))]

theorem joinSep_cons_head (x : List Char) (rest : List (List Char)) :
    ∃ t, joinSep (x :: rest) = x ++ t := by
  cases rest with
  | nil => exact ⟨[], by simp [joinSep]⟩
  | cons y rest => exact ⟨Separator :: joinSep (y :: rest), by simp [joinSep]⟩

/-- The function `Clean` leaves a relative path of plain elements unchanged. -/
theorem cleanChars_joinSep_plain (cs : List (List Char)) (hne : cs ≠ [])
    (h : ∀ e ∈ cs, IsPlain e) : cleanChars (joinSep cs) = joinSep cs := by
  cases cs with
  | nil => exact absurd rfl hne
  | cons x rest =>
    obtain ⟨t, ht⟩ := joinSep_cons_head x rest
    obtain ⟨hx1, hx2, _, _⟩ := h x (by simp)
    obtain ⟨c, xs, rfl⟩ := List.exists_cons_of_ne_nil hx1
    have hc : c ≠ Separator := fun hc => hx2 (by simp [hc])
    have hsplit := splitSep_joinSep (( c :: xs) :: rest) (by simp) (fun e he => (h e he).2.1)
    have hfold := foldl_cleanStep_plain false ((c :: xs) :: rest) [] h
    unfold cleanChars
    rw [hsplit, ht]
    simp only [List.cons_append, List.head?_cons, Option.some.injEq, hc, decide_False]
    simp only [hfold]
    simpa using ht

theorem dropWhile_noSep (e rest : List Char) (h : Separator ∉ e) :
    (e ++ Separator :: rest).dropWhile (fun c => c != Separator) = Separator :: rest := by
  induction e with
  | nil => simp [List.dropWhile]
  | cons c cs ih =>
    have hc : c ≠ Separator := fun hc => h (by simp [hc])
    have hcs : Separator ∉ cs := fun hcs => h (by simp [hcs])
    have hb : (c != Separator) = true := by simp [hc]
    simp only [List.cons_append, List.dropWhile, hb]
    exact ih hcs

theorem dirChars_append (a e : List Char) (h : Separator ∉ e) :
    dirChars (a ++ Separator :: e) = a ++ [Separator] := by
  unfold dirChars
  have hrev : (a ++ Separator :: e).reverse = e.reverse ++ Separator :: a.reverse := by simp
  rw [hrev, dropWhile_noSep e.reverse a.reverse (by simpa using h)]
  simp

theorem cleanChars_trailingSep (a : List Char) (ha : IsPlain a) :
    cleanChars (a ++ [Separator]) = a := by
  obtain ⟨h1, h2, h3, h4⟩ := ha
  obtain ⟨c, xs, rfl⟩ := List.exists_cons_of_ne_nil h1
  have hc : c ≠ Separator := fun hc => h2 (by simp [hc])
  have hsplit : splitSep ((c :: xs) ++ [Separator]) = [c :: xs, []] := by
    rw [splitSep_append (c :: xs) [] h2]; rfl
  unfold cleanChars
  rw [hsplit]
  simp [hc, cleanStep, h3, h4, joinSep]

/-- Two plain elements join to `a/b`. -/
theorem Join_plain_plain (a b : String) (ha : IsPlain a.data) (hb : IsPlain b.data) :
    Join [a, b] = a ++ "/" ++ b := by
  have hane : a ≠ "" := by
    intro h; apply ha.1; rw [h]
  have hc := cleanChars_joinSep_plain [a.data, b.data] (by simp)
    (by intro e he; simp at he; rcases he with rfl | rfl <;> assumption)
  simp only [Join, hane, if_false, List.map, Clean, hc]
  apply String.ext
  simp [joinSep, Separator]

/-- A plain element followed by `b/c` with plain `b` and `c` joins to
`a/b/c`. -/
theorem Join_plain_pair (a b c : String) (ha : IsPlain a.data) (hb : IsPlain b.data)
    (hc : IsPlain c.data) : Join [a, b ++ "/" ++ c] = a ++ "/" ++ b ++ "/" ++ c := by
  have hane : a ≠ "" := by
    intro h; apply ha.1; rw [h]
  have hcl := cleanChars_joinSep_plain [a.data, b.data, c.data] (by simp)
    (by intro e he; simp at he; rcases he with rfl | rfl | rfl <;> assumption)
  have hj : joinSep [a.data, (b ++ "/" ++ c).data] = joinSep [a.data, b.data, c.data] := by
    simp [joinSep, Separator]
  simp only [Join, hane, if_false, List.map, Clean, hj, hcl]
  apply String.ext
  simp [joinSep, Separator]

/-- Three plain elements join to `a/b/c`. -/
theorem Join_plain_three (a b c : String) (ha : IsPlain a.data) (hb : IsPlain b.data)
    (hc : IsPlain c.data) : Join [a, b, c] = a ++ "/" ++ b ++ "/" ++ c := by
  have hane : a ≠ "" := by
    intro h; apply ha.1; rw [h]
  have hcl := cleanChars_joinSep_plain [a.data, b.data, c.data] (by simp)
    (by intro e he; simp at he; rcases he with rfl | rfl | rfl <;> assumption)
  simp only [Join, hane, if_false, List.map, Clean, hcl]
  apply String.ext
  simp [joinSep, Separator]

/-- The directory part of `a/b` is `a` when `a` is plain and `b` has no
separator. -/
theorem Dir_plain (a b : String) (ha : IsPlain a.data) (hb : Separator ∉ b.data) :
    Dir (a ++ "/" ++ b) = a := by
  have hd : (a ++ "/" ++ b).data = a.data ++ Separator :: b.data := by
    simp [Separator]
  simp only [Dir, Clean, hd, dirChars_append a.data b.data hb, cleanChars_trailingSep a.data ha]

end filepath

/-! ## The candidates of `find` -/

theorem hexDigit_getD_mem (n : Nat) (h : n < 16) : hexDigit.getD n '0' ∈ hexDigit := by
  interval_cases n <;> decide

theorem hexDigit_plain_char (c : Char) (h : c ∈ hexDigit ∨ c = ':') :
    c ≠ filepath.Separator ∧ c ≠ '.' := by
  have hall : ∀ d ∈ hexDigit, d ≠ filepath.Separator ∧ d ≠ '.' := by decide
  rcases h with h | h
  · exact hall c h
  · subst h; decide

theorem writeFrom_chars (i : Nat) (a : List Nat) :
    ∀ c ∈ HardwareAddr.writeFrom i a, c ∈ hexDigit ∨ c = ':' := by
  induction a generalizing i with
  | nil => intro c hc; simp [HardwareAddr.writeFrom] at hc
  | cons b rest ih =>
    intro c hc
    simp only [HardwareAddr.writeFrom, List.mem_append, List.mem_cons, List.mem_singleton,
      List.not_mem_nil, or_false] at hc
    rcases hc with (hc | hc | hc) | hc
    · by_cases hi : i > 0
      · simp [hi] at hc; exact Or.inr hc
      · simp [hi] at hc
    · left; rw [hc]; exact hexDigit_getD_mem _ (Nat.mod_lt _ (by decide))
    · left; rw [hc]; exact hexDigit_getD_mem _ (Nat.mod_lt _ (by decide))
    · exact ih (i + 1) c hc

/-- The string form of a non-empty hardware address is a plain path element. -/
theorem macString_plain (a : HardwareAddr) (h : a ≠ []) :
    filepath.IsPlain (HardwareAddr.String a).data := by
  obtain ⟨b, rest, rfl⟩ := List.exists_cons_of_ne_nil h
  have hs : (HardwareAddr.String (b :: rest)).data = HardwareAddr.writeFrom 0 (b :: rest) := by
    simp [HardwareAddr.String]
  rw [hs]
  have hall := writeFrom_chars 0 (b :: rest)
  have hhead : hexDigit.getD (b / 16 % 16) '0' ≠ '.' :=
    (hexDigit_plain_char _ (Or.inl (hexDigit_getD_mem _ (Nat.mod_lt _ (by decide))))).2
  refine ⟨?_, ?_, ?_, ?_⟩
  · simp [HardwareAddr.writeFrom]
  · intro hmem
    exact (hexDigit_plain_char _ (hall _ hmem)).1 rfl
  · simp [HardwareAddr.writeFrom]
  · intro heq
    simp only [HardwareAddr.writeFrom, Nat.lt_irrefl, if_false, List.nil_append,
      List.cons_append, List.cons.injEq] at heq
    exact hhead heq.1

theorem isPlain_uuid : filepath.IsPlain "uuid".data := by
  unfold filepath.IsPlain; decide

theorem isPlain_mac : filepath.IsPlain "mac".data := by
  unfold filepath.IsPlain; decide

theorem isPlain_cloud : filepath.IsPlain "cloud".data := by
  unfold filepath.IsPlain; decide

/-- For a plain value the candidate `sub/value` survives `filter` and is
probed under the name `cloud/sub/value`. -/
theorem candidate_plain (sub v : String) (hs : filepath.IsPlain sub.data)
    (hv : filepath.IsPlain v.data) (hdot : sub ≠ ".") :
    filepath.Dir (filepath.Join [sub, v]) ≠ "." ∧
    filepath.Join [cloudPrefix, filepath.Join [sub, v]] = "cloud/" ++ sub ++ "/" ++ v := by
  rw [filepath.Join_plain_plain sub v hs hv]
  constructor
  · rw [filepath.Dir_plain sub v hs hv.2.1]; exact hdot
  · rw [show cloudPrefix = "cloud" from rfl,
      filepath.Join_plain_pair "cloud" sub v isPlain_cloud hs hv]
    apply String.ext; simp

theorem filter_uuid_empty (rest : List String) :
    filter (filepath.Join ["uuid", ""] :: rest) = filter rest := by
  have h : filepath.Dir (filepath.Join ["uuid", ""]) = "." := by decide
  simp [filter, h]

theorem filter_kept (p : String) (rest : List String) (h : filepath.Dir p ≠ ".") :
    filter (p :: rest) = p :: filter rest := by
  simp [filter, h]

theorem mem_filter (l : List String) (q : String) (h : q ∈ filter l) : q ∈ l := by
  induction l with
  | nil => simp [filter] at h
  | cons x xs ih =>
    by_cases hx : filepath.Dir x = "."
    · simp only [filter, hx, ne_eq, not_true_eq_false, if_false] at h
      exact List.mem_cons_of_mem _ (ih h)
    · simp only [filter, hx, ne_eq, not_false_eq_true, if_true, List.mem_cons] at h
      rcases h with h | h
      · simp [h]
      · exact List.mem_cons_of_mem _ (ih h)

theorem isDirectory_not_regular (fs : FileSystem) (path : String)
    (h : fs.isDirectory path = true) : fs.isRegularFile path = false := by
  unfold FileSystem.isDirectory at h
  unfold FileSystem.isRegularFile
  cases ho : fs.open_ path with
  | error e => rfl
  | ok f =>
    rw [ho] at h
    cases hs : f.stat with
    | error e => simp only [hs]
    | ok info => simp only [hs] at h ⊢; simpa using h

theorem without_not_regular (fs : FileSystem) (path : String) :
    (fs.without path).isRegularFile path = false := by
  simp [FileSystem.isRegularFile, FileSystem.without]

theorem openFile_without_ne (fs : FileSystem) (path q : String) (w : World) (h : q ≠ path) :
    openFile (fs.without path) q w = openFile fs q w := by
  simp [openFile, FileSystem.Open, FileSystem.without, h]

/-- The search does not tell a directory from an absent entry. -/
theorem findLoop_without (fs : FileSystem) (path pfx : String) (l : List String) (w : World)
    (h : fs.isDirectory path = true) :
    fileStore.findLoop ⟨fs.without path⟩ pfx l w = fileStore.findLoop ⟨fs⟩ pfx l w := by
  induction l generalizing w with
  | nil => rfl
  | cons q rest ih =>
    by_cases hq : filepath.Join [pfx, q] = path
    · obtain ⟨e1, h1⟩ := openFile_fail fs (filepath.Join [pfx, q]) w
        (hq ▸ isDirectory_not_regular fs path h)
      obtain ⟨e2, h2⟩ := openFile_fail (fs.without path) (filepath.Join [pfx, q]) w
        (hq ▸ without_not_regular fs path)
      simp only [fileStore.findLoop, h1, h2, ih]
    · simp only [fileStore.findLoop, openFile_without_ne fs path _ w hq, ih]

/-- The search of `CloudConfig` when the first candidates do not resolve and
the next one is a regular file whose read fails: the read error is
returned. -/
theorem cloudConfig_first_hit_unreadable (s : fileStore) (attrs : MachineAttrs)
    (pre : List String) (p : String) (post : List String) (f : File) (e : Error) (w : World)
    (hsplit : filter (searchPaths attrs) = pre ++ p :: post)
    (hpre : ∀ q ∈ pre, s.root.isRegularFile (filepath.Join [cloudPrefix, q]) = false)
    (ho : s.root.open_ (filepath.Join [cloudPrefix, p]) = .ok f) (hs : f.stat = .ok ⟨true⟩)
    (hr : f.readAll = .error e) :
    (s.CloudConfig attrs w).1 = (none, some e) := by
  simp [fileStore.CloudConfig, fileStore.find, hsplit, findLoop_skip s cloudPrefix pre _ w hpre,
    findLoop_hit s cloudPrefix p post f _ ho hs, hr]

/-- The search of `CloudConfig` when no uuid or mac candidate resolves and
`cloud/default` is a readable regular file. -/
theorem cloudConfig_default_hit (fs : FileSystem) (attrs : MachineAttrs) (d : String)
    (w : World)
    (hnone : ∀ p ∈ filter [filepath.Join ["uuid", attrs.UUID],
        filepath.Join ["mac", attrs.MAC.String]],
      fs.isRegularFile (filepath.Join [cloudPrefix, p]) = false)
    (hdef : fs.hasContent "cloud/default" d) :
    fileStore.CloudConfig ⟨fs⟩ attrs w
      = ((some ⟨d⟩, none),
          { opened := w.opened
              ++ (filter [filepath.Join ["uuid", attrs.UUID],
                    filepath.Join ["mac", attrs.MAC.String]] ++ ["/default"]).map
                  (fun q => filepath.Join [cloudPrefix, q]),
            live := w.live }) := by
  rw [← join_cloud_default] at hdef
  exact cloudConfig_first_hit ⟨fs⟩ attrs _ "/default" [] d w (filter_searchPaths attrs)
    hnone hdef

/-! ## Claims about `CloudConfig` -/

/-- C1 (counterexample): the UUID `.` is non-empty and `cloud/uuid/.` is a
readable regular file with content `c` (under that name and under its cleaned
name `cloud/uuid`), yet `CloudConfig` does not return `c`: the candidate
`filepath.Join("uuid", ".")` is `uuid`, which `filter` drops, and the call ends
with the "no cloud config" error. -/
theorem cloudConfig_uuid_dot_not_served :
    (MachineAttrs.mk "." []).UUID ≠ "" ∧
    dotUuidFs.hasContent ("cloud/uuid/" ++ (MachineAttrs.mk "." []).UUID) "c" ∧
    dotUuidFs.hasContent (filepath.Join ["cloud", "uuid", (MachineAttrs.mk "." []).UUID]) "c" ∧
    (fileStore.CloudConfig ⟨dotUuidFs⟩ ⟨".", []⟩ World.init).1 ≠ (some ⟨"c"⟩, none) ∧
    (fileStore.CloudConfig ⟨dotUuidFs⟩ ⟨".", []⟩ World.init).1
      = (none, some (.noConfig "cloud" ⟨".", []⟩)) :=
  ⟨by decide, ⟨File.text "c", rfl, rfl, rfl⟩, ⟨File.text "c", rfl, rfl, rfl⟩, by decide,
    by decide⟩

/-- C1 (amended): whenever the uuid candidate `filepath.Join("uuid", UUID)`
survives `filter` (its directory part is not `.`) and the name it is probed
under, `filepath.Join("cloud", filepath.Join("uuid", UUID))`, is a readable
regular file with content `c`, `CloudConfig` returns exactly `c` with a nil
error, whatever exists at the mac and default candidates.  This covers every
plain UUID (non-empty, without separator, neither `.` nor `..`), for which
the name is `cloud/uuid/<UUID>` as written. -/
theorem cloudConfig_uuid_first (fs : FileSystem) (attrs : MachineAttrs) (c : String)
    (w : World) :
    (filepath.Dir (filepath.Join ["uuid", attrs.UUID]) ≠ "." →
      fs.hasContent (filepath.Join [cloudPrefix, filepath.Join ["uuid", attrs.UUID]]) c →
      (fileStore.CloudConfig ⟨fs⟩ attrs w).1 = (some ⟨c⟩, none)) ∧
    (filepath.IsPlain attrs.UUID.data →
      fs.hasContent ("cloud/uuid/" ++ attrs.UUID) c →
      (fileStore.CloudConfig ⟨fs⟩ attrs w).1 = (some ⟨c⟩, none)) := by
  have main : filepath.Dir (filepath.Join ["uuid", attrs.UUID]) ≠ "." →
      fs.hasContent (filepath.Join [cloudPrefix, filepath.Join ["uuid", attrs.UUID]]) c →
      (fileStore.CloudConfig ⟨fs⟩ attrs w).1 = (some ⟨c⟩, none) := by
    intro hkept hfile
    have hsplit : filter (searchPaths attrs)
        = [] ++ filepath.Join ["uuid", attrs.UUID]
            :: filter [filepath.Join ["mac", attrs.MAC.String], "/default"] := by
      simp [searchPaths, filter_kept _ _ hkept]
    rw [cloudConfig_first_hit ⟨fs⟩ attrs [] _ _ c w hsplit (by simp) hfile]
  refine ⟨main, ?_⟩
  intro hplain hfile
  obtain ⟨hkept, hname⟩ := candidate_plain "uuid" attrs.UUID isPlain_uuid hplain (by decide)
  have hname2 : filepath.Join [cloudPrefix, filepath.Join ["uuid", attrs.UUID]]
      = "cloud/uuid/" ++ attrs.UUID := by
    rw [hname]; apply String.ext; simp
  rw [← hname2] at hfile
  exact main hkept hfile

/-- C1 (witness): the UUID `u1` with `cloud/uuid/u1`, a mac file and a default
file all present. -/
theorem cloudConfig_uuid_first_witness :
    filepath.Dir (filepath.Join ["uuid", sampleAttrs.UUID]) ≠ "." ∧
    filepath.IsPlain sampleAttrs.UUID.data ∧
    cloudFs.hasContent "cloud/uuid/u1" "c" ∧
    (fileStore.CloudConfig ⟨cloudFs⟩ sampleAttrs World.init).1 = (some ⟨"c"⟩, none) ∧
    (fileStore.CloudConfig ⟨cloudFs⟩ sampleAttrs World.init).1 = (some ⟨"c"⟩, none) :=
  ⟨by decide, by unfold filepath.IsPlain; decide, ⟨File.text "c", rfl, rfl, rfl⟩,
    (cloudConfig_uuid_first cloudFs sampleAttrs "c" World.init).1 (by decide)
      ⟨File.text "c", rfl, rfl, rfl⟩,
    (cloudConfig_uuid_first cloudFs sampleAttrs "c" World.init).2
      (by unfold filepath.IsPlain; decide) ⟨File.text "c", rfl, rfl, rfl⟩⟩

/-- C2: with an empty UUID and a non-empty MAC `m`, if `cloud/mac/<m.String()>`
is a readable regular file with content `c`, `CloudConfig` returns `c` with a
nil error, whatever exists at `cloud/default`. -/
theorem cloudConfig_mac (fs : FileSystem) (attrs : MachineAttrs) (c : String) (w : World)
    (huuid : attrs.UUID = "") (hmac : attrs.MAC ≠ [])
    (hfile : fs.hasContent ("cloud/mac/" ++ attrs.MAC.String) c) :
    (fileStore.CloudConfig ⟨fs⟩ attrs w).1 = (some ⟨c⟩, none) := by
  obtain ⟨hkept, hname⟩ :=
    candidate_plain "mac" attrs.MAC.String isPlain_mac (macString_plain attrs.MAC hmac)
      (by decide)
  have hname2 : filepath.Join [cloudPrefix, filepath.Join ["mac", attrs.MAC.String]]
      = "cloud/mac/" ++ attrs.MAC.String := by
    rw [hname]; apply String.ext; simp
  have hsplit : filter (searchPaths attrs)
      = [] ++ filepath.Join ["mac", attrs.MAC.String] :: filter ["/default"] := by
    simp [searchPaths, huuid, filter_uuid_empty, filter_kept _ _ hkept]
  rw [← hname2] at hfile
  rw [cloudConfig_first_hit ⟨fs⟩ attrs [] _ _ c w hsplit (by simp) hfile]

/-- C2 (witness): an empty UUID and the MAC `aa:bb:cc:dd:ee:ff`. -/
theorem cloudConfig_mac_witness :
    cloudFs.hasContent "cloud/mac/aa:bb:cc:dd:ee:ff" "m" ∧
    (fileStore.CloudConfig ⟨cloudFs⟩ ⟨"", [0xaa, 0xbb, 0xcc, 0xdd, 0xee, 0xff]⟩ World.init).1
      = (some ⟨"m"⟩, none) :=
  ⟨⟨File.text "m", rfl, rfl, rfl⟩,
    cloudConfig_mac cloudFs ⟨"", [0xaa, 0xbb, 0xcc, 0xdd, 0xee, 0xff]⟩ "m" World.init rfl
      (by decide) ⟨File.text "m", rfl, rfl, rfl⟩⟩

/-- C3: `/default` is always the last candidate of the filtered search list
and is probed as `cloud/default`; if none of the uuid and mac candidates that
are probed resolves to a regular file and `cloud/default` is a readable
regular file with content `d`, `CloudConfig` returns `d` with a nil error, and
`cloud/default` is the last name it opened. -/
theorem cloudConfig_default_last (fs : FileSystem) (attrs : MachineAttrs) (d : String)
    (w : World)
    (hnone : ∀ p ∈ filter [filepath.Join ["uuid", attrs.UUID],
        filepath.Join ["mac", attrs.MAC.String]],
      fs.isRegularFile (filepath.Join [cloudPrefix, p]) = false)
    (hdef : fs.hasContent "cloud/default" d) :
    (filter (searchPaths attrs)).getLast? = some "/default" ∧
    filepath.Join [cloudPrefix, "/default"] = "cloud/default" ∧
    (fileStore.CloudConfig ⟨fs⟩ attrs w).1 = (some ⟨d⟩, none) ∧
    (fileStore.CloudConfig ⟨fs⟩ attrs w).2.opened.getLast? = some "cloud/default" := by
  have hrun := cloudConfig_default_hit fs attrs d w hnone hdef
  refine ⟨?_, join_cloud_default, ?_, ?_⟩
  · rw [filter_searchPaths]; simp
  · rw [hrun]
  · rw [hrun]; simp [join_cloud_default]

/-- C3 (witness): empty UUID, zero-value MAC, only `cloud/default` present. -/
theorem cloudConfig_default_last_witness :
    defaultOnlyFs.hasContent "cloud/default" "d" ∧
    (fileStore.CloudConfig ⟨defaultOnlyFs⟩ ⟨"", []⟩ World.init).1 = (some ⟨"d"⟩, none) :=
  ⟨⟨File.text "d", rfl, rfl, rfl⟩,
    (cloudConfig_default_last defaultOnlyFs ⟨"", []⟩ "d" World.init (by decide)
      ⟨File.text "d", rfl, rfl, rfl⟩).2.2.1⟩

/-- C4 (counterexample): `cloud/default` resolves to a readable regular file,
so some candidate does, yet `CloudConfig` returns a nil config and a non-nil
error: the earlier candidate `cloud/uuid/u1` is a regular file whose read
fails, and that read error is returned. -/
theorem cloudConfig_unreadable_first_errors :
    "/default" ∈ filter (searchPaths sampleAttrs) ∧
    unreadableUuidFs.hasContent (filepath.Join [cloudPrefix, "/default"]) "d" ∧
    (fileStore.CloudConfig ⟨unreadableUuidFs⟩ sampleAttrs World.init).1
      = (none, some (.io "input/output error")) :=
  ⟨by decide, ⟨File.text "d", rfl, rfl, rfl⟩, by decide⟩

/-- C4 (amended): when none of the probed candidates resolves to a regular
file, `CloudConfig` returns a nil config and the error "no cloud config for
machine <attrs>"; when the first probed candidate that resolves to a regular
file is readable with content `c`, it returns the config with content `c` and
a nil error; when the read of that first regular file fails with `e`, it
returns a nil config and `e`. -/
theorem cloudConfig_outcome (fs : FileSystem) (attrs : MachineAttrs) (w : World) :
    ((∀ p ∈ filter (searchPaths attrs),
        fs.isRegularFile (filepath.Join [cloudPrefix, p]) = false) →
      (fileStore.CloudConfig ⟨fs⟩ attrs w).1 = (none, some (.noConfig "cloud" attrs)) ∧
      (Error.noConfig "cloud" attrs).message
        = "no cloud config for machine " ++ attrs.format) ∧
    (∀ (pre : List String) (p : String) (post : List String),
      filter (searchPaths attrs) = pre ++ p :: post →
      (∀ q ∈ pre, fs.isRegularFile (filepath.Join [cloudPrefix, q]) = false) →
      (∀ c, fs.hasContent (filepath.Join [cloudPrefix, p]) c →
        (fileStore.CloudConfig ⟨fs⟩ attrs w).1 = (some ⟨c⟩, none)) ∧
      (∀ f e, fs.open_ (filepath.Join [cloudPrefix, p]) = .ok f → f.stat = .ok ⟨true⟩ →
        f.readAll = .error e →
        (fileStore.CloudConfig ⟨fs⟩ attrs w).1 = (none, some e))) := by
  refine ⟨?_, ?_⟩
  · intro h
    refine ⟨?_, ?_⟩
    · rw [cloudConfig_no_hit ⟨fs⟩ attrs w h]; rfl
    · apply String.ext; simp [Error.message]
  · intro pre p post hsplit hpre
    refine ⟨?_, ?_⟩
    · intro c hc
      rw [cloudConfig_first_hit ⟨fs⟩ attrs pre p post c w hsplit hpre hc]
    · intro f e ho hs hr
      exact cloudConfig_first_hit_unreadable ⟨fs⟩ attrs pre p post f e w hsplit hpre ho hs hr

/-- C4 (witness): no candidate at all in the empty provider; the uuid
candidate of `cloudFs` is the first regular file and is readable; the uuid
candidate of `unreadableUuidFs` is the first regular file and its read
fails. -/
theorem cloudConfig_outcome_witness :
    ((fileStore.CloudConfig ⟨FileSystem.ofList []⟩ sampleAttrs World.init).1
        = (none, some (.noConfig "cloud" sampleAttrs)) ∧
      (Error.noConfig "cloud" sampleAttrs).message
        = "no cloud config for machine \x7bUUID:u1 MAC:aa:bb:cc:dd:ee:ff\x7d") ∧
    (fileStore.CloudConfig ⟨cloudFs⟩ sampleAttrs World.init).1 = (some ⟨"c"⟩, none) ∧
    (fileStore.CloudConfig ⟨unreadableUuidFs⟩ sampleAttrs World.init).1
      = (none, some (.io "input/output error")) :=
  ⟨(cloudConfig_outcome (FileSystem.ofList []) sampleAttrs World.init).1 (by decide),
    ((cloudConfig_outcome cloudFs sampleAttrs World.init).2 [] "uuid/u1"
      ["mac/aa:bb:cc:dd:ee:ff", "/default"] (by decide) (by decide)).1 "c"
      ⟨File.text "c", rfl, rfl, rfl⟩,
    ((cloudConfig_outcome unreadableUuidFs sampleAttrs World.init).2 [] "uuid/u1"
      ["mac/aa:bb:cc:dd:ee:ff", "/default"] (by decide) (by decide)).2 File.unreadable
      (.io "input/output error") rfl rfl rfl⟩

/-- C10: when `cloud/uuid/<UUID>` exists but is a directory (for every UUID,
the non-empty ones included), the mac candidate does not resolve to a regular
file and `cloud/default` is a readable regular file with content `d`,
`CloudConfig` returns `d` with a nil error; and the call returns the same
result, opens the same names and leaves the same handles open as on the
provider without the directory entry. -/
theorem cloudConfig_skips_directory (fs : FileSystem) (attrs : MachineAttrs) (d : String)
    (w : World)
    (hdir : fs.isDirectory
      (filepath.Join [cloudPrefix, filepath.Join ["uuid", attrs.UUID]]) = true)
    (hmac : ∀ p ∈ filter [filepath.Join ["mac", attrs.MAC.String]],
      fs.isRegularFile (filepath.Join [cloudPrefix, p]) = false)
    (hdef : fs.hasContent "cloud/default" d) :
    (fileStore.CloudConfig ⟨fs⟩ attrs w).1 = (some ⟨d⟩, none) ∧
    fileStore.CloudConfig ⟨fs⟩ attrs w
      = fileStore.CloudConfig
          ⟨fs.without (filepath.Join [cloudPrefix, filepath.Join ["uuid", attrs.UUID]])⟩
          attrs w := by
  refine ⟨?_, ?_⟩
  · have hnone : ∀ p ∈ filter [filepath.Join ["uuid", attrs.UUID],
          filepath.Join ["mac", attrs.MAC.String]],
        fs.isRegularFile (filepath.Join [cloudPrefix, p]) = false := by
      intro p hp
      have happ := filter_append [filepath.Join ["uuid", attrs.UUID]]
        [filepath.Join ["mac", attrs.MAC.String]]
      simp only [List.singleton_append] at happ
      rw [happ, List.mem_append] at hp
      rcases hp with hp | hp
      · have hp2 := mem_filter _ _ hp
        simp only [List.mem_singleton] at hp2
        rw [hp2]
        exact isDirectory_not_regular fs _ hdir
      · exact hmac p hp
    rw [cloudConfig_default_hit fs attrs d w hnone hdef]
  · simp only [fileStore.CloudConfig, fileStore.find, findLoop_without fs _ cloudPrefix _ w hdir]

/-- C10 (witness): `cloud/uuid/u1` is a directory and `cloud/default` holds
`d`. -/
theorem cloudConfig_skips_directory_witness :
    sampleAttrs.UUID ≠ "" ∧ dirUuidFs.isDirectory "cloud/uuid/u1" = true ∧
    (fileStore.CloudConfig ⟨dirUuidFs⟩ sampleAttrs World.init).1 = (some ⟨"d"⟩, none) :=
  ⟨by decide, by decide,
    (cloudConfig_skips_directory dirUuidFs sampleAttrs "d" World.init (by decide) (by decide)
      ⟨File.text "d", rfl, rfl, rfl⟩).1⟩

/-! ## Claims about `Machine` and `Spec` -/

theorem openFile_open_error (fs : FileSystem) (path : String) (e : Error) (w : World)
    (ho : fs.open_ path = .error e) :
    openFile fs path w = (.error e, { opened := w.opened ++ [path], live := w.live }) := by
  simp [openFile, FileSystem.Open, ho]

theorem openFile_fst_indep (fs : FileSystem) (path : String) (w w0 : World) :
    (openFile fs path w).1 = (openFile fs path w0).1 := by
  unfold openFile FileSystem.Open
  cases fs.open_ path with
  | error e => rfl
  | ok f =>
    simp only
    cases f.stat with
    | error e => rfl
    | ok info =>
      simp only
      by_cases hreg : info.isRegular = true
      · simp [hreg]
      · simp [hreg]

theorem spec_open_ok (s : fileStore) (id : String) (f : File) (w : World)
    (ho : s.root.open_ (filepath.Join ["specs", id, "spec.json"]) = .ok f)
    (hs : f.stat = .ok ⟨true⟩) :
    s.Spec id w
      = ((some f.decodeSpec.1, f.decodeSpec.2),
          { opened := w.opened ++ [filepath.Join ["specs", id, "spec.json"]],
            live := w.live }) := by
  simp [fileStore.Spec, openFile_regular s.root _ f w ho hs, Handle.Close]

theorem spec_not_regular (s : fileStore) (id : String) (w : World)
    (h : s.root.isRegularFile (filepath.Join ["specs", id, "spec.json"]) = false) :
    ∃ e, s.Spec id w
      = ((none, some e),
          { opened := w.opened ++ [filepath.Join ["specs", id, "spec.json"]],
            live := w.live }) := by
  obtain ⟨e, he⟩ := openFile_fail s.root _ w h
  exact ⟨e, by simp [fileStore.Spec, he]⟩

/-- The result of `Spec` does not depend on the calls made before it. -/
theorem spec_fst_indep (s : fileStore) (id : String) (w w0 : World) :
    (s.Spec id w).1 = (s.Spec id w0).1 := by
  have h := openFile_fst_indep s.root (filepath.Join ["specs", id, "spec.json"]) w w0
  unfold fileStore.Spec
  cases h1 : openFile s.root (filepath.Join ["specs", id, "spec.json"]) w with
  | mk r1 w1 =>
    cases h2 : openFile s.root (filepath.Join ["specs", id, "spec.json"]) w0 with
    | mk r2 w2 =>
      rw [h1, h2] at h
      simp only at h
      subst h
      cases r1 <;> rfl

/-- C5: when the provider's `Open` fails with `e` at `machines/<id>/machine.json`
(the name `filepath.Join("machines", id, "machine.json")`), `Machine(id)`
returns a nil machine and `e`; likewise `Spec(id)` returns a nil spec and `e`
when `Open` fails with `e` at `specs/<id>/spec.json`.  For a plain id the two
names are `machines/<id>/machine.json` and `specs/<id>/spec.json` as
written. -/
theorem machine_spec_not_found (fs : FileSystem) (id : String) (e : Error) (w : World) :
    (fs.open_ (filepath.Join ["machines", id, "machine.json"]) = .error e →
      (fileStore.Machine ⟨fs⟩ id w).1 = (none, some e)) ∧
    (fs.open_ (filepath.Join ["specs", id, "spec.json"]) = .error e →
      (fileStore.Spec ⟨fs⟩ id w).1 = (none, some e)) ∧
    (filepath.IsPlain id.data →
      filepath.Join ["machines", id, "machine.json"] = "machines/" ++ id ++ "/machine.json" ∧
      filepath.Join ["specs", id, "spec.json"] = "specs/" ++ id ++ "/spec.json") := by
  refine ⟨?_, ?_, ?_⟩
  · intro ho
    simp [fileStore.Machine, openFile_open_error fs _ e w ho]
  · intro ho
    simp [fileStore.Spec, openFile_open_error fs _ e w ho]
  · intro hid
    constructor
    · rw [filepath.Join_plain_three "machines" id "machine.json"
        (by unfold filepath.IsPlain; decide) hid (by unfold filepath.IsPlain; decide)]
      apply String.ext; simp
    · rw [filepath.Join_plain_three "specs" id "spec.json"
        (by unfold filepath.IsPlain; decide) hid (by unfold filepath.IsPlain; decide)]
      apply String.ext; simp

/-- C5 (witness): the id `zz` has neither a machine nor a spec entry. -/
theorem machine_spec_not_found_witness :
    (fileStore.Machine ⟨machineFs⟩ "zz" World.init).1
      = (none, some (.notExist "machines/zz/machine.json")) ∧
    (fileStore.Spec ⟨machineFs⟩ "zz" World.init).1
      = (none, some (.notExist "specs/zz/spec.json")) ∧
    filepath.Join ["machines", "zz", "machine.json"] = "machines/" ++ "zz" ++ "/machine.json" :=
  ⟨(machine_spec_not_found machineFs "zz" (.notExist "machines/zz/machine.json")
      World.init).1 rfl,
    (machine_spec_not_found machineFs "zz" (.notExist "specs/zz/spec.json")
      World.init).2.1 rfl,
    ((machine_spec_not_found machineFs "zz" (.notExist "specs/zz/spec.json")
      World.init).2.2 (by unfold filepath.IsPlain; decide)).1⟩

/-- C6: when `machines/<id>/machine.json` is a regular file that decodes
cleanly to a record `r` with an empty `SpecID`, `Machine(id)` returns exactly
`r` with a nil error, and the machine file is the only name it opens (no spec
lookup). -/
theorem machine_without_spec (fs : FileSystem) (id : String) (f : File) (r : Machine)
    (w : World)
    (ho : fs.open_ (filepath.Join ["machines", id, "machine.json"]) = .ok f)
    (hs : f.stat = .ok ⟨true⟩) (hdec : f.decodeMachine = (r, none))
    (hid : r.SpecID = "") :
    (fileStore.Machine ⟨fs⟩ id w).1 = (some r, none) ∧
    (fileStore.Machine ⟨fs⟩ id w).2.opened
      = w.opened ++ [filepath.Join ["machines", id, "machine.json"]] := by
  simp [fileStore.Machine, openFile_regular fs _ f w ho hs, hdec, hid, Handle.Close]

/-- C6 (witness): the machine `a`. -/
theorem machine_without_spec_witness :
    (fileStore.Machine ⟨machineFs⟩ "a" World.init).1 = (some ⟨"", some ⟨"boot-a"⟩⟩, none) ∧
    (fileStore.Machine ⟨machineFs⟩ "a" World.init).2.opened = ["machines/a/machine.json"] :=
  machine_without_spec machineFs "a" (File.machineJson ⟨"", some ⟨"boot-a"⟩⟩)
    ⟨"", some ⟨"boot-a"⟩⟩ World.init rfl rfl rfl rfl

/-- C7: when the machine record decodes cleanly to `r` with a nil
`BootConfig` and a non-empty `SpecID`, and `specs/<SpecID>/spec.json` is a
regular file that decodes cleanly to a spec `sp`, `Machine(id)` returns the
machine with `BootConfig` equal to that of `sp`, the same `SpecID`, and a nil
error. -/
theorem machine_inherits_bootConfig (fs : FileSystem) (id : String) (f g : File)
    (r : Machine) (sp : Spec) (w : World)
    (ho : fs.open_ (filepath.Join ["machines", id, "machine.json"]) = .ok f)
    (hs : f.stat = .ok ⟨true⟩) (hdec : f.decodeMachine = (r, none))
    (hboot : r.BootConfig = none) (hid : r.SpecID ≠ "")
    (hso : fs.open_ (filepath.Join ["specs", r.SpecID, "spec.json"]) = .ok g)
    (hss : g.stat = .ok ⟨true⟩) (hsdec : g.decodeSpec = (sp, none)) :
    (fileStore.Machine ⟨fs⟩ id w).1
      = (some { SpecID := r.SpecID, BootConfig := sp.BootConfig }, none) := by
  simp [fileStore.Machine, openFile_regular fs _ f w ho hs, hdec, hboot, hid,
    spec_open_ok ⟨fs⟩ r.SpecID g _ hso hss, hsdec]

/-- C7 (witness): the machine `b` inherits the boot config of the spec `S`. -/
theorem machine_inherits_bootConfig_witness :
    (fileStore.Machine ⟨machineFs⟩ "b" World.init).1
      = (some ⟨"S", some ⟨"boot-S"⟩⟩, none) :=
  machine_inherits_bootConfig machineFs "b" (File.machineJson ⟨"S", none⟩)
    (File.specJson ⟨some ⟨"boot-S"⟩⟩) ⟨"S", none⟩ ⟨some ⟨"boot-S"⟩⟩ World.init rfl rfl rfl rfl
    (by decide) rfl rfl rfl

/-- C8: when the machine record decodes cleanly to `r` with a nil
`BootConfig` and a non-empty `SpecID`, and the nested `Spec(SpecID)` lookup
returns a non-nil error (whatever the reason), `Machine(id)` returns `r` with
its `BootConfig` still nil and a nil error. -/
theorem machine_swallows_spec_error (fs : FileSystem) (id : String) (f : File)
    (r : Machine) (w w0 : World)
    (ho : fs.open_ (filepath.Join ["machines", id, "machine.json"]) = .ok f)
    (hs : f.stat = .ok ⟨true⟩) (hdec : f.decodeMachine = (r, none))
    (hboot : r.BootConfig = none) (hid : r.SpecID ≠ "")
    (hfail : (fileStore.Spec ⟨fs⟩ r.SpecID w0).1.2 ≠ none) :
    (fileStore.Machine ⟨fs⟩ id w).1 = (some r, none) ∧ r.BootConfig = none := by
  refine ⟨?_, hboot⟩
  have hind := spec_fst_indep ⟨fs⟩ r.SpecID w0
    { opened := w.opened ++ [filepath.Join ["machines", id, "machine.json"]],
      live := filepath.Join ["machines", id, "machine.json"] :: w.live }
  rw [hind] at hfail
  simp only [fileStore.Machine, openFile_regular fs _ f w ho hs, hdec, hboot, hid, ne_eq,
    not_false_eq_true, and_self, if_true]
  cases hsp : fileStore.Spec ⟨fs⟩ r.SpecID
      { opened := w.opened ++ [filepath.Join ["machines", id, "machine.json"]],
        live := filepath.Join ["machines", id, "machine.json"] :: w.live } with
  | mk res w2 =>
    rw [hsp] at hfail
    obtain ⟨sp, err⟩ := res
    cases sp with
    | none => rfl
    | some sp =>
      cases err with
      | none => exact absurd rfl hfail
      | some e => rfl

/-- C8 (witness): the machine `d` refers to a spec whose file does not
decode. -/
theorem machine_swallows_spec_error_witness :
    (fileStore.Spec ⟨machineFs⟩ "bad" World.init).1.2 ≠ none ∧
    (fileStore.Machine ⟨machineFs⟩ "d" World.init).1 = (some ⟨"bad", none⟩, none) :=
  ⟨by decide,
    (machine_swallows_spec_error machineFs "d" (File.machineJson ⟨"bad", none⟩) ⟨"bad", none⟩
      World.init World.init rfl rfl rfl rfl (by decide) (by decide)).1⟩

/-- C9: when `specs/<id>/spec.json` is a regular file whose decode leaves the
record `sp` and fails with `e`, `Spec(id)` returns the non-nil `sp` together
with `e`; and, for every provider and id, `Spec` returns a nil spec exactly
when the name does not resolve to a regular file, in which case `openFile`
failed on that name and its error is the one returned. -/
theorem spec_decode_error (fs : FileSystem) (id : String) (w : World) :
    (∀ (f : File) (sp : Spec) (e : Error),
      fs.open_ (filepath.Join ["specs", id, "spec.json"]) = .ok f →
      f.stat = .ok ⟨true⟩ → f.decodeSpec = (sp, some e) →
      (fileStore.Spec ⟨fs⟩ id w).1 = (some sp, some e)) ∧
    ((fileStore.Spec ⟨fs⟩ id w).1.1 = none ↔
      fs.isRegularFile (filepath.Join ["specs", id, "spec.json"]) = false) ∧
    ((fileStore.Spec ⟨fs⟩ id w).1.1 = none →
      ∃ e0, (openFile fs (filepath.Join ["specs", id, "spec.json"]) w).1 = .error e0 ∧
        (fileStore.Spec ⟨fs⟩ id w).1 = (none, some e0)) := by
  have hnil : (fileStore.Spec ⟨fs⟩ id w).1.1 = none →
      fs.isRegularFile (filepath.Join ["specs", id, "spec.json"]) = false := by
    intro hnil
    cases hr : fs.isRegularFile (filepath.Join ["specs", id, "spec.json"]) with
    | false => rfl
    | true =>
      exfalso
      unfold FileSystem.isRegularFile at hr
      cases hfo : fs.open_ (filepath.Join ["specs", id, "spec.json"]) with
      | error e2 => rw [hfo] at hr; simp at hr
      | ok f0 =>
        rw [hfo] at hr
        cases hfs : f0.stat with
        | error e2 => simp [hfs] at hr
        | ok info =>
          simp only [hfs] at hr
          have hst : f0.stat = .ok ⟨true⟩ := by
            cases info with
            | mk b => simp only at hr; subst hr; exact hfs
          rw [spec_open_ok ⟨fs⟩ id f0 w hfo hst] at hnil
          simp at hnil
  refine ⟨?_, ⟨hnil, ?_⟩, ?_⟩
  · intro f sp e ho hs hdec
    simp [spec_open_ok ⟨fs⟩ id f w ho hs, hdec]
  · intro hr
    obtain ⟨e0, he0⟩ := spec_not_regular ⟨fs⟩ id w hr
    rw [he0]
  · intro h
    obtain ⟨e0, he0⟩ := openFile_fail fs _ w (hnil h)
    exact ⟨e0, by rw [he0], by simp [fileStore.Spec, he0]⟩

/-- C9 (witness): the spec `bad` does not decode and is returned with its
error; the spec `zz` is absent and the spec `dir` is a directory, and only
those come back nil. -/
theorem spec_decode_error_witness :
    (fileStore.Spec ⟨machineFs⟩ "bad" World.init).1
      = (some ⟨some ⟨"half"⟩⟩, some (.decode "unexpected end of JSON input")) ∧
    (fileStore.Spec ⟨machineFs⟩ "zz" World.init).1.1 = none ∧
    (fileStore.Spec ⟨machineFs⟩ "dir" World.init).1.1 = none ∧
    (fileStore.Spec ⟨machineFs⟩ "bad" World.init).1.1 ≠ none :=
  ⟨(spec_decode_error machineFs "bad" World.init).1
      (File.badSpecJson ⟨some ⟨"half"⟩⟩ (.decode "unexpected end of JSON input"))
      ⟨some ⟨"half"⟩⟩ (.decode "unexpected end of JSON input") rfl rfl rfl,
    (spec_decode_error machineFs "zz" World.init).2.1.mpr (by decide),
    (spec_decode_error machineFs "dir" World.init).2.1.mpr (by decide),
    fun h => absurd ((spec_decode_error machineFs "bad" World.init).2.1.mp h) (by decide)⟩

/-! ## The complete outcome of each operation -/

theorem openedSince_append (w : World) (l live : List String) :
    World.openedSince { opened := w.opened ++ l, live := live } w = l := by
  simp [World.openedSince]

theorem isRegularFile_true (fs : FileSystem) (path : String)
    (h : fs.isRegularFile path = true) :
    ∃ f, fs.open_ path = .ok f ∧ f.stat = .ok ⟨true⟩ := by
  unfold FileSystem.isRegularFile at h
  cases ho : fs.open_ path with
  | error e => rw [ho] at h; simp at h
  | ok f =>
    rw [ho] at h
    cases hs : f.stat with
    | error e => simp [hs] at h
    | ok info =>
      simp only [hs] at h
      refine ⟨f, rfl, ?_⟩
      cases info with
      | mk b => simp only at h; subst h; exact hs

/-- The two outcomes of `openFile`: a handle on a regular file, which stays
open, or an error with every handle closed again. -/
theorem openFile_cases (fs : FileSystem) (path : String) (w : World) :
    (∃ f, fs.open_ path = .ok f ∧ f.stat = .ok ⟨true⟩ ∧
      openFile fs path w
        = (.ok ⟨path, f⟩, { opened := w.opened ++ [path], live := path :: w.live })) ∨
    (fs.isRegularFile path = false ∧
      ∃ e, openFile fs path w
        = (.error e, { opened := w.opened ++ [path], live := w.live })) := by
  cases hr : fs.isRegularFile path with
  | true =>
    obtain ⟨f, ho, hs⟩ := isRegularFile_true fs path hr
    exact Or.inl ⟨f, ho, hs, openFile_regular fs path f w ho hs⟩
  | false => exact Or.inr ⟨rfl, openFile_fail fs path w hr⟩

/-- The state after `Spec`: one more name opened, the open handles as
before. -/
theorem spec_world (s : fileStore) (id : String) (w : World) :
    (s.Spec id w).2
      = { opened := w.opened ++ [filepath.Join ["specs", id, "spec.json"]],
          live := w.live } := by
  rcases openFile_cases s.root (filepath.Join ["specs", id, "spec.json"]) w with
    ⟨f, ho, hs, _⟩ | ⟨hr, _⟩
  · rw [spec_open_ok s id f w ho hs]
  · obtain ⟨e, he⟩ := spec_not_regular s id w hr
    rw [he]

/-- The record `Machine` returns for the decoded record `r`: the spec merge
when `r` has no boot config and names a spec whose lookup succeeds, `r` itself
otherwise. -/
theorem machine_open_ok (s : fileStore) (id : String) (f : File) (w : World)
    (ho : s.root.open_ (filepath.Join ["machines", id, "machine.json"]) = .ok f)
    (hs : f.stat = .ok ⟨true⟩) :
    s.Machine id w
      = if f.decodeMachine.1.BootConfig = none ∧ f.decodeMachine.1.SpecID ≠ "" then
          ((some (match (s.Spec f.decodeMachine.1.SpecID World.init).1 with
              | (some sp, none) => { f.decodeMachine.1 with BootConfig := sp.BootConfig }
              | _ => f.decodeMachine.1),
            f.decodeMachine.2),
            { opened := w.opened ++ [filepath.Join ["machines", id, "machine.json"],
                filepath.Join ["specs", f.decodeMachine.1.SpecID, "spec.json"]],
              live := w.live })
        else
          ((some f.decodeMachine.1, f.decodeMachine.2),
            { opened := w.opened ++ [filepath.Join ["machines", id, "machine.json"]],
              live := w.live }) := by
  by_cases hc : f.decodeMachine.1.BootConfig = none ∧ f.decodeMachine.1.SpecID ≠ ""
  · rw [if_pos hc]
    have hind := spec_fst_indep s f.decodeMachine.1.SpecID
      { opened := w.opened ++ [filepath.Join ["machines", id, "machine.json"]],
        live := filepath.Join ["machines", id, "machine.json"] :: w.live } World.init
    have hw := spec_world s f.decodeMachine.1.SpecID
      { opened := w.opened ++ [filepath.Join ["machines", id, "machine.json"]],
        live := filepath.Join ["machines", id, "machine.json"] :: w.live }
    simp only [fileStore.Machine, openFile_regular s.root _ f w ho hs, hc, and_self, if_true]
    cases hsp : s.Spec f.decodeMachine.1.SpecID
        { opened := w.opened ++ [filepath.Join ["machines", id, "machine.json"]],
          live := filepath.Join ["machines", id, "machine.json"] :: w.live } with
    | mk res w2 =>
      rw [hsp] at hind hw
      simp only at hind hw
      rw [← hind, hw]
      obtain ⟨sp, err⟩ := res
      cases sp <;> cases err <;> simp [Handle.Close, hc.2]
  · rw [if_neg hc]
    simp only [fileStore.Machine, openFile_regular s.root _ f w ho hs, hc, if_false,
      Handle.Close, List.erase_cons_head]

theorem machine_not_regular (s : fileStore) (id : String) (w : World)
    (h : s.root.isRegularFile (filepath.Join ["machines", id, "machine.json"]) = false) :
    ∃ e, (openFile s.root (filepath.Join ["machines", id, "machine.json"]) w).1 = .error e ∧
      s.Machine id w
        = ((none, some e),
            { opened := w.opened ++ [filepath.Join ["machines", id, "machine.json"]],
              live := w.live }) := by
  obtain ⟨e, he⟩ := openFile_fail s.root _ w h
  exact ⟨e, by rw [he], by simp [fileStore.Machine, he]⟩

/-- The trace of the search loop: the names opened are the probed names of a
leading part of the candidate list, and the only handle left open is the one
returned. -/
theorem findLoop_trace (s : fileStore) (pfx : String) (l : List String) (w : World) :
    ∃ pre, pre <+: l ∧
      (s.findLoop pfx l w).2.opened = w.opened ++ pre.map (fun q => filepath.Join [pfx, q]) ∧
      (s.findLoop pfx l w).2.live
        = (match (s.findLoop pfx l w).1 with
            | some h => h.name :: w.live
            | none => w.live) := by
  induction l generalizing w with
  | nil => exact ⟨[], List.prefix_refl _, by simp [fileStore.findLoop], rfl⟩
  | cons q rest ih =>
    rcases openFile_cases s.root (filepath.Join [pfx, q]) w with ⟨f, _, _, hok⟩ | ⟨_, e, he⟩
    · refine ⟨[q], ?_, ?_, ?_⟩
      · exact ⟨rest, rfl⟩
      · simp [fileStore.findLoop, hok]
      · simp [fileStore.findLoop, hok]
    · obtain ⟨pre, hpre, hop, hlive⟩ :=
        ih { opened := w.opened ++ [filepath.Join [pfx, q]], live := w.live }
      refine ⟨q :: pre, ?_, ?_, ?_⟩
      · obtain ⟨t, ht⟩ := hpre
        exact ⟨t, by simp [ht]⟩
      · simp only [fileStore.findLoop, he, hop]
        simp
      · simp only [fileStore.findLoop, he]
        exact hlive

/-- The trace of `CloudConfig`: the names opened are the probed names of a
leading part of the filtered candidates, and no handle stays open. -/
theorem cloudConfig_trace (s : fileStore) (attrs : MachineAttrs) (w : World) :
    ∃ pre, pre <+: filter (searchPaths attrs) ∧
      (s.CloudConfig attrs w).2
        = { opened := w.opened ++ pre.map (fun q => filepath.Join [cloudPrefix, q]),
            live := w.live } := by
  obtain ⟨pre, hpre, hop, hlive⟩ := findLoop_trace s cloudPrefix (filter (searchPaths attrs)) w
  refine ⟨pre, hpre, ?_⟩
  unfold fileStore.CloudConfig fileStore.find
  cases hf : s.findLoop cloudPrefix (filter (searchPaths attrs)) w with
  | mk res w1 =>
    rw [hf] at hop hlive
    simp only at hop hlive
    cases res with
    | none =>
      simp only at hlive ⊢
      cases w1 with
      | mk o l => simp only at hop hlive; rw [hop, hlive]
    | some h =>
      simp only at hlive ⊢
      cases w1 with
      | mk o l =>
        simp only at hop hlive
        cases h.file.readAll <;> simp [Handle.Close, hop, hlive]

theorem openFile_directory (fs : FileSystem) (path : String) (w : World)
    (h : fs.isDirectory path = true) :
    openFile fs path w
      = (.error (.notAFile path), { opened := w.opened ++ [path], live := w.live }) := by
  unfold FileSystem.isDirectory at h
  unfold openFile FileSystem.Open
  cases ho : fs.open_ path with
  | error e => rw [ho] at h; simp at h
  | ok f =>
    rw [ho] at h
    cases hs : f.stat with
    | error e => simp [hs] at h
    | ok info =>
      simp only [hs] at h
      have hreg : info.isRegular = false := by simpa using h
      simp [hs, hreg, Handle.Close]

/-- C11 (counterexample): with an empty UUID and a zero-value MAC the only
probed candidate is `cloud/default`; it is a directory, and `openFile` reports
the "is not a file" error for it, yet `CloudConfig` returns the "no cloud
config" error, not the "is not a file" error. -/
theorem cloudConfig_default_directory_generic :
    filter (searchPaths ⟨"", []⟩) = ["/default"] ∧
    dirDefaultFs.isDirectory "cloud/default" = true ∧
    (openFile dirDefaultFs "cloud/default" World.init).1 = .error (.notAFile "cloud/default") ∧
    (fileStore.CloudConfig ⟨dirDefaultFs⟩ ⟨"", []⟩ World.init).1
      = (none, some (.noConfig "cloud" ⟨"", []⟩)) ∧
    (fileStore.CloudConfig ⟨dirDefaultFs⟩ ⟨"", []⟩ World.init).1.2
      ≠ some (.notAFile "cloud/default") :=
  ⟨by decide, by decide, rfl, by decide, by decide⟩

/-- C11 (amended): when no earlier candidate resolves and `cloud/default`
exists but is a directory, `CloudConfig` returns a nil config and the error
"no cloud config for machine <attrs>" (the "is not a file" error of the
candidate is dropped by `find`); for every provider and id, `Machine` and
`Spec`, which open their single name directly, return a nil record and the
"is not a file" error for that name when it is a directory. -/
theorem cloudConfig_default_directory (fs : FileSystem) (attrs : MachineAttrs) (id : String)
    (w : World) :
    ((∀ p ∈ filter [filepath.Join ["uuid", attrs.UUID],
          filepath.Join ["mac", attrs.MAC.String]],
        fs.isRegularFile (filepath.Join [cloudPrefix, p]) = false) →
      fs.isDirectory "cloud/default" = true →
      (fileStore.CloudConfig ⟨fs⟩ attrs w).1 = (none, some (.noConfig "cloud" attrs))) ∧
    (fs.isDirectory (filepath.Join ["machines", id, "machine.json"]) = true →
      (fileStore.Machine ⟨fs⟩ id w).1
        = (none, some (.notAFile (filepath.Join ["machines", id, "machine.json"])))) ∧
    (fs.isDirectory (filepath.Join ["specs", id, "spec.json"]) = true →
      (fileStore.Spec ⟨fs⟩ id w).1
        = (none, some (.notAFile (filepath.Join ["specs", id, "spec.json"])))) ∧
    (∀ path, (Error.notAFile path).message = path ++ " is not a file on the given filesystem") := by
  refine ⟨?_, ?_, ?_, ?_⟩
  · intro hnone hdir
    have hall : ∀ q ∈ filter (searchPaths attrs),
        fs.isRegularFile (filepath.Join [cloudPrefix, q]) = false := by
      intro q hq
      rw [filter_searchPaths, List.mem_append] at hq
      rcases hq with hq | hq
      · exact hnone q hq
      · simp only [List.mem_singleton] at hq
        rw [hq, join_cloud_default]
        exact isDirectory_not_regular fs _ hdir
    rw [cloudConfig_no_hit ⟨fs⟩ attrs w hall]
    rfl
  · intro hd
    simp [fileStore.Machine, openFile_directory fs _ w hd]
  · intro hd
    simp [fileStore.Spec, openFile_directory fs _ w hd]
  · intro path; rfl

/-- C11 (witness): `cloud/default`, `machines/q/machine.json` and
`specs/q/spec.json` are directories of `mergeFs`; `specs/dir/spec.json` is a
directory of `machineFs`, which has no `cloud/default`. -/
theorem cloudConfig_default_directory_witness :
    mergeFs.isDirectory "cloud/default" = true ∧
    (fileStore.CloudConfig ⟨mergeFs⟩ ⟨"", []⟩ World.init).1
      = (none, some (.noConfig "cloud" ⟨"", []⟩)) ∧
    (fileStore.Machine ⟨mergeFs⟩ "q" World.init).1
      = (none, some (.notAFile "machines/q/machine.json")) ∧
    (fileStore.Spec ⟨mergeFs⟩ "q" World.init).1
      = (none, some (.notAFile "specs/q/spec.json")) ∧
    (fileStore.Spec ⟨machineFs⟩ "dir" World.init).1
      = (none, some (.notAFile "specs/dir/spec.json")) :=
  ⟨by decide,
    (cloudConfig_default_directory mergeFs ⟨"", []⟩ "q" World.init).1 (by decide) (by decide),
    (cloudConfig_default_directory mergeFs ⟨"", []⟩ "q" World.init).2.1 (by decide),
    (cloudConfig_default_directory mergeFs ⟨"", []⟩ "q" World.init).2.2.1 (by decide),
    (cloudConfig_default_directory machineFs ⟨"", []⟩ "dir" World.init).2.2.1 (by decide)⟩

/-- C15: `openFile` returns a handle (with a nil error) exactly when `Open`
succeeds, `Stat` succeeds and reports a regular file, and the handle is then
the opened one; a failed `Open` returns its error unchanged, a failed `Stat`
returns the stat error, and a non-regular entry returns the error
"<path> is not a file on the given filesystem"; no handle is returned in these
three cases. -/
theorem openFile_result (fs : FileSystem) (path : String) (w : World) :
    ((∃ h, (openFile fs path w).1 = .ok h) ↔
      ∃ f info, fs.open_ path = .ok f ∧ f.stat = .ok info ∧ info.isRegular = true) ∧
    (∀ f info, fs.open_ path = .ok f → f.stat = .ok info → info.isRegular = true →
      (openFile fs path w).1 = .ok ⟨path, f⟩) ∧
    (∀ e, fs.open_ path = .error e → (openFile fs path w).1 = .error e) ∧
    (∀ f e, fs.open_ path = .ok f → f.stat = .error e → (openFile fs path w).1 = .error e) ∧
    (∀ f info, fs.open_ path = .ok f → f.stat = .ok info → info.isRegular = false →
      (openFile fs path w).1 = .error (.notAFile path)) ∧
    (Error.notAFile path).message = path ++ " is not a file on the given filesystem" := by
  have hok : ∀ f info, fs.open_ path = .ok f → f.stat = .ok info → info.isRegular = true →
      (openFile fs path w).1 = .ok ⟨path, f⟩ := by
    intro f info ho hs hr
    simp [openFile, FileSystem.Open, ho, hs, hr]
  refine ⟨⟨?_, ?_⟩, hok, ?_, ?_, ?_, rfl⟩
  · rintro ⟨h, hh⟩
    obtain ⟨f, ho, hs⟩ := isRegularFile_true fs path (openFile_ok_regular fs path w h hh)
    exact ⟨f, ⟨true⟩, ho, hs, rfl⟩
  · rintro ⟨f, info, ho, hs, hr⟩
    exact ⟨⟨path, f⟩, hok f info ho hs hr⟩
  · intro e ho
    simp [openFile, FileSystem.Open, ho]
  · intro f e ho hs
    simp [openFile, FileSystem.Open, ho, hs]
  · intro f info ho hs hr
    simp [openFile, FileSystem.Open, ho, hs, hr]

/-- C15 (witness): a regular file, an absent name, an entry whose `Stat`
fails and a directory. -/
theorem openFile_result_witness :
    (openFile cloudFs "cloud/default" World.init).1 = .ok ⟨"cloud/default", File.text "d"⟩ ∧
    (openFile cloudFs "cloud/none" World.init).1 = .error (.notExist "cloud/none") ∧
    (openFile statFailsFs "cloud/uuid/u1" World.init).1 = .error (.io "stat failed") ∧
    (openFile dirDefaultFs "cloud/default" World.init).1
      = .error (.notAFile "cloud/default") :=
  ⟨(openFile_result cloudFs "cloud/default" World.init).2.1 (File.text "d") ⟨true⟩ rfl rfl rfl,
    (openFile_result cloudFs "cloud/none" World.init).2.2.1 (.notExist "cloud/none") rfl,
    (openFile_result statFailsFs "cloud/uuid/u1" World.init).2.2.2.1 File.statFails
      (.io "stat failed") rfl rfl,
    (openFile_result dirDefaultFs "cloud/default" World.init).2.2.2.2.1 File.dir ⟨false⟩
      rfl rfl rfl⟩

/-! ## Claims about the spec merge -/

/-- C14: when the machine file is a regular file whose decode leaves a record
`r` with a non-nil `BootConfig` `b` (with or without a decode error, for every
`SpecID`), `Machine(id)` returns `r` unchanged, so its `BootConfig` is exactly
`b`, and the machine file is the only name opened: no spec is probed. -/
theorem machine_keeps_own_bootConfig (fs : FileSystem) (id : String) (f : File)
    (r : Machine) (err : Option Error) (b : BootConfig) (w : World)
    (ho : fs.open_ (filepath.Join ["machines", id, "machine.json"]) = .ok f)
    (hs : f.stat = .ok ⟨true⟩) (hdec : f.decodeMachine = (r, err))
    (hb : r.BootConfig = some b) :
    (fileStore.Machine ⟨fs⟩ id w).1 = (some r, err) ∧
    (fileStore.Machine ⟨fs⟩ id w).1.1.map Machine.BootConfig = some (some b) ∧
    (fileStore.Machine ⟨fs⟩ id w).2.openedSince w
      = [filepath.Join ["machines", id, "machine.json"]] := by
  have hrun := machine_open_ok ⟨fs⟩ id f w ho hs
  have hc : ¬ (f.decodeMachine.1.BootConfig = none ∧ f.decodeMachine.1.SpecID ≠ "") := by
    rw [hdec]; simp [hb]
  rw [if_neg hc, hdec] at hrun
  rw [hrun]
  exact ⟨rfl, by simp [hb], openedSince_append w _ _⟩

/-- C14 (witness): the machine `o` has its own boot config and refers to the
spec `S`, which has another one. -/
theorem machine_keeps_own_bootConfig_witness :
    (fileStore.Machine ⟨mergeFs⟩ "o" World.init).1 = (some ⟨"S", some ⟨"own"⟩⟩, none) ∧
    (fileStore.Machine ⟨mergeFs⟩ "o" World.init).1.1.map Machine.BootConfig
      = some (some ⟨"own"⟩) ∧
    (fileStore.Machine ⟨mergeFs⟩ "o" World.init).2.openedSince World.init
      = ["machines/o/machine.json"] :=
  machine_keeps_own_bootConfig mergeFs "o" (File.machineJson ⟨"S", some ⟨"own"⟩⟩)
    ⟨"S", some ⟨"own"⟩⟩ none ⟨"own"⟩ World.init rfl rfl rfl rfl

/-- C19: when the machine file is a regular file, `Machine(id)` returns a
non-nil record together with exactly the decode outcome of the machine file
(its decode error, nil if it decoded cleanly), whatever the nested spec lookup
does.  If the decoded (possibly partial) record has a nil `BootConfig` and a
non-empty `SpecID`, the spec file is opened; when that lookup succeeds the
spec's `BootConfig` is copied in, when it fails the record is returned as
decoded.  Otherwise the record is returned as decoded. -/
theorem machine_error_is_decode_error (fs : FileSystem) (id : String) (f : File) (w : World)
    (ho : fs.open_ (filepath.Join ["machines", id, "machine.json"]) = .ok f)
    (hs : f.stat = .ok ⟨true⟩) :
    (fileStore.Machine ⟨fs⟩ id w).1.2 = f.decodeMachine.2 ∧
    (fileStore.Machine ⟨fs⟩ id w).1.1 ≠ none ∧
    (f.decodeMachine.1.BootConfig = none → f.decodeMachine.1.SpecID ≠ "" →
      (fileStore.Machine ⟨fs⟩ id w).2.openedSince w
        = [filepath.Join ["machines", id, "machine.json"],
            filepath.Join ["specs", f.decodeMachine.1.SpecID, "spec.json"]] ∧
      (∀ g sp, fs.open_ (filepath.Join ["specs", f.decodeMachine.1.SpecID, "spec.json"]) = .ok g →
        g.stat = .ok ⟨true⟩ → g.decodeSpec = (sp, none) →
        (fileStore.Machine ⟨fs⟩ id w).1
          = (some { SpecID := f.decodeMachine.1.SpecID, BootConfig := sp.BootConfig },
              f.decodeMachine.2)) ∧
      (∀ w0, (fileStore.Spec ⟨fs⟩ f.decodeMachine.1.SpecID w0).1.2 ≠ none →
        (fileStore.Machine ⟨fs⟩ id w).1 = (some f.decodeMachine.1, f.decodeMachine.2))) ∧
    ((f.decodeMachine.1.BootConfig ≠ none ∨ f.decodeMachine.1.SpecID = "") →
      (fileStore.Machine ⟨fs⟩ id w).1 = (some f.decodeMachine.1, f.decodeMachine.2)) := by
  have hrun := machine_open_ok ⟨fs⟩ id f w ho hs
  refine ⟨?_, ?_, ?_, ?_⟩
  · rw [hrun]; split <;> rfl
  · rw [hrun]; split <;> simp
  · intro hb hid
    rw [if_pos ⟨hb, hid⟩] at hrun
    rw [hrun]
    refine ⟨openedSince_append w _ _, ?_, ?_⟩
    · intro g sp hgo hgs hgd
      rw [spec_open_ok ⟨fs⟩ _ g World.init hgo hgs, hgd]
    · intro w0 hfail
      rw [spec_fst_indep ⟨fs⟩ _ w0 World.init] at hfail
      cases hsp : (fileStore.Spec ⟨fs⟩ f.decodeMachine.1.SpecID World.init).1 with
      | mk sp err =>
        rw [hsp] at hfail
        cases sp with
        | none => rfl
        | some sp =>
          cases err with
          | none => exact absurd rfl hfail
          | some e => rfl
  · intro hc
    have hneg : ¬ (f.decodeMachine.1.BootConfig = none ∧ f.decodeMachine.1.SpecID ≠ "") := by
      rintro ⟨h1, h2⟩
      rcases hc with hc | hc
      · exact hc h1
      · exact h2 hc
    rw [if_neg hneg] at hrun
    rw [hrun]

/-- C19 (witness): the machine `p` does not decode; its partial record has no
boot config and refers to the spec `S`, whose boot config is copied in while
the decode error is returned. -/
theorem machine_error_is_decode_error_witness :
    (fileStore.Machine ⟨mergeFs⟩ "p" World.init).1.2
      = some (.decode "unexpected end of JSON input") ∧
    (fileStore.Machine ⟨mergeFs⟩ "p" World.init).1
      = (some ⟨"S", some ⟨"boot-S"⟩⟩, some (.decode "unexpected end of JSON input")) :=
  ⟨(machine_error_is_decode_error mergeFs "p"
      (File.badMachineJson ⟨"S", none⟩ (.decode "unexpected end of JSON input")) World.init
      rfl rfl).1,
    ((machine_error_is_decode_error mergeFs "p"
      (File.badMachineJson ⟨"S", none⟩ (.decode "unexpected end of JSON input")) World.init
      rfl rfl).2.2.1 rfl (by decide)).2.1 (File.specJson ⟨some ⟨"boot-S"⟩⟩) ⟨some ⟨"boot-S"⟩⟩
      rfl rfl rfl⟩

/-! ## Claims about handles and opened names -/

/-- C16: after `Machine`, `Spec` and `CloudConfig`, whatever path the call
took, the handles that are open are exactly those that were open before the
call: every handle obtained during the call has been closed. -/
theorem handles_released (s : fileStore) (id : String) (attrs : MachineAttrs) (w : World) :
    (s.Machine id w).2.live = w.live ∧
    (s.Spec id w).2.live = w.live ∧
    (s.CloudConfig attrs w).2.live = w.live := by
  refine ⟨?_, ?_, ?_⟩
  · rcases openFile_cases s.root (filepath.Join ["machines", id, "machine.json"]) w with
      ⟨f, ho, hs, _⟩ | ⟨hr, _⟩
    · rw [machine_open_ok s id f w ho hs]
      split <;> rfl
    · obtain ⟨e, _, he⟩ := machine_not_regular s id w hr
      rw [he]
  · rw [spec_world]
  · obtain ⟨pre, _, h⟩ := cloudConfig_trace s attrs w
    rw [h]

theorem filter_length_le (l : List String) : (filter l).length ≤ l.length := by
  induction l with
  | nil => simp [filter]
  | cons x xs ih =>
    by_cases hx : filepath.Dir x = "."
    · simp only [filter, hx, ne_eq, not_true_eq_false, if_false, List.length_cons]
      omega
    · simp only [filter, hx, ne_eq, not_false_eq_true, if_true, List.length_cons]
      omega

/-- The state after `CloudConfig` when the first candidates do not resolve
and the next one is a regular file, readable or not. -/
theorem cloudConfig_world_hit (s : fileStore) (attrs : MachineAttrs)
    (pre : List String) (p : String) (post : List String) (w : World)
    (hsplit : filter (searchPaths attrs) = pre ++ p :: post)
    (hpre : ∀ q ∈ pre, s.root.isRegularFile (filepath.Join [cloudPrefix, q]) = false)
    (hp : s.root.isRegularFile (filepath.Join [cloudPrefix, p]) = true) :
    (s.CloudConfig attrs w).2
      = { opened := w.opened ++ (pre ++ [p]).map (fun q => filepath.Join [cloudPrefix, q]),
          live := w.live } := by
  obtain ⟨f, ho, hs⟩ := isRegularFile_true s.root _ hp
  simp only [fileStore.CloudConfig, fileStore.find, hsplit,
    findLoop_skip s cloudPrefix pre _ w hpre, findLoop_hit s cloudPrefix p post f _ ho hs]
  cases f.readAll <;> simp [Handle.Close]

/-- C18: the names `CloudConfig` opens are the probed names of a leading part
of the filtered candidate list, at most 3, namely the candidates up to and
including the first one that is a regular file (all of them when none is);
`Machine` opens the machine file
and then, exactly when that file is a regular file whose decoded record has a
nil `BootConfig` and a non-empty `SpecID`, the one spec file
`specs/<SpecID>/spec.json` of that decoded `SpecID`, at most 2 names; `Spec`
opens exactly its one name. -/
theorem opened_names_bounded (s : fileStore) (id : String) (attrs : MachineAttrs)
    (w : World) :
    ((s.CloudConfig attrs w).2.openedSince w
      <+: (filter (searchPaths attrs)).map (fun q => filepath.Join [cloudPrefix, q])) ∧
    ((s.CloudConfig attrs w).2.openedSince w).length ≤ 3 ∧
    ((s.Machine id w).2.openedSince w = [filepath.Join ["machines", id, "machine.json"]] ∨
      ∃ sid, (s.Machine id w).2.openedSince w
        = [filepath.Join ["machines", id, "machine.json"],
            filepath.Join ["specs", sid, "spec.json"]]) ∧
    ((s.Machine id w).2.openedSince w).length ≤ 2 ∧
    (s.Spec id w).2.openedSince w = [filepath.Join ["specs", id, "spec.json"]] ∧
    (∀ f, s.root.open_ (filepath.Join ["machines", id, "machine.json"]) = .ok f →
      f.stat = .ok ⟨true⟩ →
      (s.Machine id w).2.openedSince w
        = if f.decodeMachine.1.BootConfig = none ∧ f.decodeMachine.1.SpecID ≠ "" then
            [filepath.Join ["machines", id, "machine.json"],
              filepath.Join ["specs", f.decodeMachine.1.SpecID, "spec.json"]]
          else [filepath.Join ["machines", id, "machine.json"]]) ∧
    (s.root.isRegularFile (filepath.Join ["machines", id, "machine.json"]) = false →
      (s.Machine id w).2.openedSince w = [filepath.Join ["machines", id, "machine.json"]]) ∧
    (∀ (pre : List String) (p : String) (post : List String),
      filter (searchPaths attrs) = pre ++ p :: post →
      (∀ q ∈ pre, s.root.isRegularFile (filepath.Join [cloudPrefix, q]) = false) →
      s.root.isRegularFile (filepath.Join [cloudPrefix, p]) = true →
      (s.CloudConfig attrs w).2.openedSince w
        = (pre ++ [p]).map (fun q => filepath.Join [cloudPrefix, q])) ∧
    ((∀ q ∈ filter (searchPaths attrs),
        s.root.isRegularFile (filepath.Join [cloudPrefix, q]) = false) →
      (s.CloudConfig attrs w).2.openedSince w
        = (filter (searchPaths attrs)).map (fun q => filepath.Join [cloudPrefix, q])) := by
  have hcloud : (s.CloudConfig attrs w).2.openedSince w
      <+: (filter (searchPaths attrs)).map (fun q => filepath.Join [cloudPrefix, q]) := by
    obtain ⟨pre, hpre, h⟩ := cloudConfig_trace s attrs w
    rw [h, openedSince_append]
    exact hpre.map _
  have hexact : ∀ f, s.root.open_ (filepath.Join ["machines", id, "machine.json"]) = .ok f →
      f.stat = .ok ⟨true⟩ →
      (s.Machine id w).2.openedSince w
        = if f.decodeMachine.1.BootConfig = none ∧ f.decodeMachine.1.SpecID ≠ "" then
            [filepath.Join ["machines", id, "machine.json"],
              filepath.Join ["specs", f.decodeMachine.1.SpecID, "spec.json"]]
          else [filepath.Join ["machines", id, "machine.json"]] := by
    intro f ho hs
    rw [machine_open_ok s id f w ho hs]
    split
    · exact openedSince_append w _ _
    · exact openedSince_append w _ _
  have hfail : s.root.isRegularFile (filepath.Join ["machines", id, "machine.json"]) = false →
      (s.Machine id w).2.openedSince w
        = [filepath.Join ["machines", id, "machine.json"]] := by
    intro hr
    obtain ⟨e, _, he⟩ := machine_not_regular s id w hr
    rw [he]
    exact openedSince_append w _ _
  have hmachine : (s.Machine id w).2.openedSince w
        = [filepath.Join ["machines", id, "machine.json"]] ∨
      ∃ sid, (s.Machine id w).2.openedSince w
        = [filepath.Join ["machines", id, "machine.json"],
            filepath.Join ["specs", sid, "spec.json"]] := by
    rcases openFile_cases s.root (filepath.Join ["machines", id, "machine.json"]) w with
      ⟨f, ho, hs, _⟩ | ⟨hr, _⟩
    · have h := hexact f ho hs
      split at h
      · exact Or.inr ⟨f.decodeMachine.1.SpecID, h⟩
      · exact Or.inl h
    · exact Or.inl (hfail hr)
  refine ⟨hcloud, ?_, hmachine, ?_, ?_, hexact, hfail, ?_, ?_⟩
  · have h1 := hcloud.length_le
    have h2 := filter_length_le (searchPaths attrs)
    have h3 : (searchPaths attrs).length = 3 := rfl
    simp only [List.length_map] at h1
    omega
  · rcases hmachine with h | ⟨sid, h⟩ <;> rw [h] <;> simp
  · rw [spec_world, openedSince_append]
  · intro pre p post hsplit hpre hp
    rw [cloudConfig_world_hit s attrs pre p post w hsplit hpre hp]
    exact openedSince_append w _ _
  · intro hall
    rw [cloudConfig_no_hit s attrs w hall]
    exact openedSince_append w _ _

/-- C18 (witness): the machine `b` refers to the spec `S`, so `Machine("b")`
opens its machine file and then `specs/S/spec.json`; the machine `a` has no
spec and `zz` has no machine file, so only the machine file is opened; on
`dirUuidFs` the uuid candidate is a directory, the mac candidate is absent and
the default is a regular file, so `CloudConfig` opens all three names. -/
theorem opened_names_bounded_witness :
    (fileStore.Machine ⟨machineFs⟩ "b" World.init).2.openedSince World.init
      = ["machines/b/machine.json", "specs/S/spec.json"] ∧
    (fileStore.Machine ⟨machineFs⟩ "a" World.init).2.openedSince World.init
      = ["machines/a/machine.json"] ∧
    (fileStore.Machine ⟨machineFs⟩ "zz" World.init).2.openedSince World.init
      = ["machines/zz/machine.json"] ∧
    (fileStore.CloudConfig ⟨dirUuidFs⟩ sampleAttrs World.init).2.openedSince World.init
      = ["cloud/uuid/u1", "cloud/mac/aa:bb:cc:dd:ee:ff", "cloud/default"] ∧
    (fileStore.CloudConfig ⟨cloudFs⟩ sampleAttrs World.init).2.openedSince World.init
      = ["cloud/uuid/u1"] :=
  ⟨(opened_names_bounded ⟨machineFs⟩ "b" sampleAttrs World.init).2.2.2.2.2.1
      (File.machineJson ⟨"S", none⟩) rfl rfl,
    (opened_names_bounded ⟨machineFs⟩ "a" sampleAttrs World.init).2.2.2.2.2.1
      (File.machineJson ⟨"", some ⟨"boot-a"⟩⟩) rfl rfl,
    (opened_names_bounded ⟨machineFs⟩ "zz" sampleAttrs World.init).2.2.2.2.2.2.1 (by decide),
    (opened_names_bounded ⟨dirUuidFs⟩ "zz" sampleAttrs World.init).2.2.2.2.2.2.2.1
      ["uuid/u1", "mac/aa:bb:cc:dd:ee:ff"] "/default" [] (by decide) (by decide) (by decide),
    (opened_names_bounded ⟨cloudFs⟩ "zz" sampleAttrs World.init).2.2.2.2.2.2.2.1
      [] "uuid/u1" ["mac/aa:bb:cc:dd:ee:ff", "/default"] (by decide) (by decide) (by decide)⟩

/-! ## Claims about the probed names -/

/-- The function `filter` keeps, in order, exactly the paths whose directory
part is not `.`. -/
theorem filter_eq_filter (l : List String) :
    filter l = l.filter (fun p => decide (filepath.Dir p ≠ ".")) := by
  induction l with
  | nil => rfl
  | cons x xs ih =>
    by_cases hx : filepath.Dir x = "."
    · simp [filter, hx, ih]
    · simp [filter, hx, ih]

theorem filter_dir (l : List String) (q : String) (h : q ∈ filter l) :
    filepath.Dir q ≠ "." := by
  rw [filter_eq_filter, List.mem_filter] at h
  simpa using h.2

/-- Every name `CloudConfig` opens is the probed name of a candidate that
passed `filter`. -/
theorem cloudConfig_opened_mem (s : fileStore) (attrs : MachineAttrs) (w : World)
    (n : String) (h : n ∈ (s.CloudConfig attrs w).2.openedSince w) :
    ∃ q, q ∈ searchPaths attrs ∧ filepath.Dir q ≠ "." ∧ n = filepath.Join [cloudPrefix, q] := by
  obtain ⟨pre, hpre, hw⟩ := cloudConfig_trace s attrs w
  rw [hw, openedSince_append, List.mem_map] at h
  obtain ⟨q, hq, rfl⟩ := h
  have hq2 := hpre.subset hq
  exact ⟨q, mem_filter _ _ hq2, filter_dir _ _ hq2, rfl⟩

/-- The probed name of the mac candidate, when it passes `filter`, is
`cloud/mac/<MAC>` with a non-empty `<MAC>`. -/
theorem mac_candidate_name (mac : HardwareAddr)
    (h : filepath.Dir (filepath.Join ["mac", mac.String]) ≠ ".") :
    filepath.Join [cloudPrefix, filepath.Join ["mac", mac.String]]
      = "cloud/mac/" ++ mac.String := by
  cases mac with
  | nil => exact absurd (by decide) h
  | cons b rest =>
    obtain ⟨_, hname⟩ := candidate_plain "mac" (HardwareAddr.String (b :: rest)) isPlain_mac
      (macString_plain (b :: rest) (by simp)) (by decide)
    rw [hname]; apply String.ext; simp

/-- With an empty UUID, `CloudConfig` never opens the bare name
`cloud/uuid`, whatever the MAC and the provider. -/
theorem cloudConfig_empty_uuid_skips_cloud_uuid (s : fileStore) (attrs : MachineAttrs)
    (w : World) (hu : attrs.UUID = "") :
    "cloud/uuid" ∉ (s.CloudConfig attrs w).2.openedSince w := by
  intro hmem
  obtain ⟨q, hq, hdir, hn⟩ := cloudConfig_opened_mem s attrs w _ hmem
  simp only [searchPaths, hu, List.mem_cons, List.mem_singleton, List.not_mem_nil,
    or_false] at hq
  rcases hq with rfl | rfl | rfl
  · exact hdir (by decide)
  · rw [mac_candidate_name attrs.MAC hdir] at hn
    have := congrArg String.data hn
    simp at this
  · rw [join_cloud_default] at hn
    exact absurd hn (by decide)

/-- With a zero-value MAC and a UUID that is empty or plain, `CloudConfig`
never opens the bare name `cloud/mac`. -/
theorem cloudConfig_zero_mac_skips_cloud_mac (s : fileStore) (attrs : MachineAttrs)
    (w : World) (hm : attrs.MAC = [])
    (hu : attrs.UUID = "" ∨ filepath.IsPlain attrs.UUID.data) :
    "cloud/mac" ∉ (s.CloudConfig attrs w).2.openedSince w := by
  intro hmem
  obtain ⟨q, hq, hdir, hn⟩ := cloudConfig_opened_mem s attrs w _ hmem
  simp only [searchPaths, hm, List.mem_cons, List.mem_singleton, List.not_mem_nil,
    or_false] at hq
  rcases hq with rfl | rfl | rfl
  · rcases hu with hu | hu
    · rw [hu] at hdir
      exact hdir (by decide)
    · obtain ⟨_, hname⟩ := candidate_plain "uuid" attrs.UUID isPlain_uuid hu (by decide)
      rw [hname] at hn
      have := congrArg String.data hn
      simp at this
  · exact hdir (by decide)
  · rw [join_cloud_default] at hn
    exact absurd hn (by decide)

/-- C13 (failing input): for the UUID `../../machines/a/machine.json` the
uuid candidate is `../machines/a/machine.json`; it passes `filter`, and the
name probed for it is `machines/a/machine.json`, outside `cloud/`:
`CloudConfig` opens that name and returns the content of the machine file as
cloud config. -/
theorem cloudConfig_uuid_escapes_cloud :
    filter (searchPaths ⟨"../../machines/a/machine.json", []⟩)
      = ["../machines/a/machine.json", "/default"] ∧
    filepath.Join [cloudPrefix, "../machines/a/machine.json"] = "machines/a/machine.json" ∧
    fileStore.CloudConfig ⟨machineFs⟩ ⟨"../../machines/a/machine.json", []⟩ World.init
      = ((some ⟨"machine"⟩, none), ⟨["machines/a/machine.json"], []⟩) ∧
    filepath.isUnder "cloud" "machines/a/machine.json" = false ∧
    filepath.isUnder "cloud" "cloud/uuid/u1" = true := by
  refine ⟨by decide, by decide, by decide, by decide, by decide⟩

/-- C17 (failing input): with a zero-value MAC and the UUID `../../cloud/mac`
the uuid candidate is `../cloud/mac`; it passes `filter`, the name probed for
it is the bare `cloud/mac`, and `CloudConfig` opens it and returns the content
of the regular file found there. -/
theorem cloudConfig_zero_mac_opens_cloud_mac :
    (MachineAttrs.mk "../../cloud/mac" []).MAC = [] ∧
    filter (searchPaths ⟨"../../cloud/mac", []⟩) = ["../cloud/mac", "/default"] ∧
    filepath.Join [cloudPrefix, "../cloud/mac"] = "cloud/mac" ∧
    fileStore.CloudConfig ⟨cloudMacFs⟩ ⟨"../../cloud/mac", []⟩ World.init
      = ((some ⟨"x"⟩, none), ⟨["cloud/mac"], []⟩) ∧
    "cloud/mac" ∈ (fileStore.CloudConfig ⟨cloudMacFs⟩ ⟨"../../cloud/mac", []⟩
      World.init).2.openedSince World.init := by
  refine ⟨rfl, by decide, by decide, by decide, by decide⟩

end api
